import Mathlib

/-!
Verification of the 3D Gomoku rules engine and AI decision engine.

The definitions below are a shallow embedding of the TypeScript sources:
  - `src/utils/gameUtils.ts` (board helpers, `getNextOpenZ`, `checkWin`, `isBoardFull`),
  - the move strategies (`GravityMoveStrategy.determinePosition`,
    `FreePlacementStrategy.determinePosition`) and `StandardWinStrategy.checkWin`,
  - `src/logic/aiStrategies.ts` (`HeuristicAIStrategy`),
  - `src/hooks/useGame.ts` (the session state machine: `applyMove`, `performUndo`,
    `startNewGame`, `makeMove`).

A board (source type `CellValue[][][]`, indexed `board[z][y][x]`) is embedded as a
total function `Int → Int → Int → Option Player` applied in the same `z y x` order;
the cube side (source expression `board.length`, always equal to the configured
`gridSize`) is passed explicitly as a `size : Nat` argument.  The source's bounded
`while` loops become fueled structural recursions with fuel `size`, which is enough
fuel because every direction vector moves some axis monotonically.
-/

/-- The two stone colors, source type `Player = 'black' | 'white'`. -/
inductive Player where
  | black
  | white
deriving DecidableEq

/-- Source: `currentPlayer === 'black' ? 'white' : 'black'`. -/
def Player.other : Player → Player
  | .black => .white
  | .white => .black

/-- Source type `CellValue = Player | null`. -/
abbrev CellValue := Option Player

/-- Source interface `Coordinate { x, y, z }`. -/
structure Coordinate where
  x : Int
  y : Int
  z : Int
deriving DecidableEq

/-- A board `CellValue[][][]`, read in the source's index order `board[z][y][x]`. -/
abbrev Board := Int → Int → Int → CellValue

/-- Writing one cell of a board (the source mutates `board[z][y][x]` in place, or
rebuilds the nested arrays with one cell replaced in `applyMove`). -/
def setCell (b : Board) (c : Coordinate) (v : CellValue) : Board :=
  fun z y x => if z = c.z ∧ y = c.y ∧ x = c.x then v else b z y x

/-- Source `createEmptyBoard(size)`: every cell `null`.  (With the functional board
representation the size argument only documents the intended extent.) -/
def createEmptyBoard (_size : Nat) : Board := fun _ _ _ => none

/-- Negation of the source's loop-break condition
`nx < 0 || nx >= size || ny < 0 || ny >= size || nz < 0 || nz >= size`. -/
def inBounds (size : Nat) (x y z : Int) : Bool :=
  (0 ≤ x && x < size) && (0 ≤ y && y < size) && (0 ≤ z && z < size)

theorem inBounds_iff {size : Nat} {x y z : Int} :
    inBounds size x y z = true ↔
      0 ≤ x ∧ x < size ∧ 0 ≤ y ∧ y < size ∧ 0 ≤ z ∧ z < size := by
  simp [inBounds, and_assoc]

/-- A coordinate whose three components index actual cells of a `size` cube. -/
def coordInBounds (size : Nat) (c : Coordinate) : Prop :=
  0 ≤ c.x ∧ c.x < size ∧ 0 ≤ c.y ∧ c.y < size ∧ 0 ≤ c.z ∧ c.z < size

instance (size : Nat) (c : Coordinate) : Decidable (coordInBounds size c) := by
  unfold coordInBounds; infer_instance

/-- The scan of `getNextOpenZ` / `GravityMoveStrategy.determinePosition`:
`for (let z = 0; z < board.length; z++) if (board[z][y][x] === null) return z`,
written with explicit fuel (`fuel` = number of z values still to inspect). -/
def getNextOpenZAux (b : Board) (x y : Int) : Nat → Nat → Option Nat
  | _, 0 => none
  | z, fuel + 1 => if b z y x = none then some z else getNextOpenZAux b x y (z + 1) fuel

/-- The landing z of column `(x, y)` under gravity, `none` when the column is full. -/
def gravityZ (b : Board) (size : Nat) (x y : Int) : Option Nat :=
  getNextOpenZAux b x y 0 size

/-- Source `getNextOpenZ` (gameUtils): the gravity scan, `-1` when the column is full. -/
def getNextOpenZ (b : Board) (size : Nat) (x y : Int) : Int :=
  match gravityZ b size x y with
  | some z => z
  | none => -1

/-- Source `GravityMoveStrategy.determinePosition`: the input z is ignored, the stone
lands at the first open z of column `(input.x, input.y)`, `null` when full. -/
def gravityDeterminePosition (b : Board) (size : Nat) (input : Coordinate) :
    Option Coordinate :=
  (gravityZ b size input.x input.y).map fun z => ⟨input.x, input.y, (z : Int)⟩

/-- Source `FreePlacementStrategy.determinePosition`: the exact input coordinate when
that cell is empty, `null` otherwise. -/
def freeDeterminePosition (b : Board) (input : Coordinate) : Option Coordinate :=
  if b input.z input.y input.x = none then some input else none

theorem getNextOpenZAux_eq_some (b : Board) (x y : Int) :
    ∀ (fuel z0 z : Nat), getNextOpenZAux b x y z0 fuel = some z ↔
      (z0 ≤ z ∧ z < z0 + fuel ∧ b z y x = none ∧
        ∀ w : Nat, z0 ≤ w → w < z → b w y x ≠ none) := by
  intro fuel
  induction fuel with
  | zero =>
    intro z0 z
    simp only [getNextOpenZAux]
    constructor
    · intro h; cases h
    · rintro ⟨h1, h2, -⟩; omega
  | succ n ih =>
    intro z0 z
    simp only [getNextOpenZAux]
    by_cases hempty : b z0 y x = none
    · rw [if_pos hempty, Option.some_inj]
      constructor
      · rintro rfl
        exact ⟨le_refl _, by omega, hempty, fun w hw1 hw2 => by omega⟩
      · rintro ⟨h1, h2, h3, h4⟩
        by_contra hne
        exact h4 z0 (le_refl _) (by omega) hempty
    · rw [if_neg hempty, ih (z0 + 1) z]
      constructor
      · rintro ⟨h1, h2, h3, h4⟩
        refine ⟨by omega, by omega, h3, fun w hw1 hw2 => ?_⟩
        rcases Nat.eq_or_lt_of_le hw1 with hEq | hlt
        · rw [← hEq]; exact hempty
        · exact h4 w hlt hw2
      · rintro ⟨h1, h2, h3, h4⟩
        have hz : z ≠ z0 := fun hEq => hempty (hEq ▸ h3)
        exact ⟨by omega, by omega, h3, fun w hw1 hw2 => h4 w (by omega) hw2⟩

theorem getNextOpenZAux_eq_none (b : Board) (x y : Int) :
    ∀ (fuel z0 : Nat), getNextOpenZAux b x y z0 fuel = none ↔
      ∀ w : Nat, z0 ≤ w → w < z0 + fuel → b w y x ≠ none := by
  intro fuel
  induction fuel with
  | zero =>
    intro z0
    simp only [getNextOpenZAux]
    constructor
    · intro _ w h1 h2; omega
    · intro _; trivial
  | succ n ih =>
    intro z0
    simp only [getNextOpenZAux]
    by_cases hempty : b z0 y x = none
    · rw [if_pos hempty]
      constructor
      · intro h; cases h
      · intro h; exact absurd hempty (h z0 (le_refl _) (by omega))
    · rw [if_neg hempty, ih (z0 + 1)]
      constructor
      · intro h w hw1 hw2
        rcases Nat.eq_or_lt_of_le hw1 with hEq | hlt
        · rw [← hEq]; exact hempty
        · exact h w hlt (by omega)
      · intro h w hw1 hw2
        exact h w (by omega) (by omega)

theorem gravityZ_eq_some {b : Board} {size : Nat} {x y : Int} {z : Nat} :
    gravityZ b size x y = some z ↔
      (z < size ∧ b z y x = none ∧ ∀ w : Nat, w < z → b w y x ≠ none) := by
  rw [gravityZ, getNextOpenZAux_eq_some]
  constructor
  · rintro ⟨-, h2, h3, h4⟩
    exact ⟨by omega, h3, fun w hw => h4 w (Nat.zero_le _) hw⟩
  · rintro ⟨h1, h2, h3⟩
    exact ⟨Nat.zero_le _, by omega, h2, fun w _ hw => h3 w hw⟩

theorem gravityZ_eq_none {b : Board} {size : Nat} {x y : Int} :
    gravityZ b size x y = none ↔ ∀ w : Nat, w < size → b w y x ≠ none := by
  rw [gravityZ, getNextOpenZAux_eq_none]
  constructor
  · intro h w hw; exact h w (Nat.zero_le _) (by omega)
  · intro h w _ hw; exact h w (by omega)

/-- Claim C3: for every board and every column `(x, y)`: if the column has at least
one empty cell, gravity move resolution returns the coordinate `(x, y, z)` where `z`
is the smallest index with `board[z][y][x]` empty (so all smaller `z` in the column
are occupied); if the column has no empty cell, `determinePosition` returns `null`
and `getNextOpenZ` returns `-1`, never a fabricated coordinate.  (Both functions
only read the board; in this pure embedding the board is trivially unchanged.) -/
theorem gravity_resolution_spec (b : Board) (size : Nat) (x y zin : Int) :
    ((∃ k : Nat, k < size ∧ b k y x = none) →
      ∃ z : Nat, z < size ∧ b z y x = none ∧ (∀ w : Nat, w < z → b w y x ≠ none) ∧
        gravityDeterminePosition b size ⟨x, y, zin⟩ = some ⟨x, y, (z : Int)⟩ ∧
        getNextOpenZ b size x y = (z : Int)) ∧
    ((∀ k : Nat, k < size → b k y x ≠ none) →
      gravityDeterminePosition b size ⟨x, y, zin⟩ = none ∧
        getNextOpenZ b size x y = -1) := by
  constructor
  · rintro ⟨k, hk, hkE⟩
    have hex : ∃ n : Nat, b n y x = none := ⟨k, hkE⟩
    set z := Nat.find hex with hz
    have hzE : b z y x = none := Nat.find_spec hex
    have hmin : ∀ w : Nat, w < z → b w y x ≠ none := fun w hw => Nat.find_min hex hw
    have hzlt : z < size := by
      have : z ≤ k := Nat.find_min' hex hkE
      omega
    have hsome : gravityZ b size x y = some z :=
      gravityZ_eq_some.mpr ⟨hzlt, hzE, hmin⟩
    refine ⟨z, hzlt, hzE, hmin, ?_, ?_⟩
    · simp [gravityDeterminePosition, hsome]
    · simp [getNextOpenZ, hsome]
  · intro hfull
    have hnone : gravityZ b size x y = none := gravityZ_eq_none.mpr hfull
    constructor
    · simp [gravityDeterminePosition, hnone]
    · simp [getNextOpenZ, hnone]

/-- Concrete board used to exercise the gravity theorem: one black stone at the
bottom of column (0, 0) of a 2-cube. -/
def bGravityW : Board := fun z y x =>
  if z = 0 ∧ y = 0 ∧ x = 0 then some Player.black else none

theorem gravity_resolution_spec_witness :
    ∃ z : Nat, z < 2 ∧ bGravityW z 0 0 = none ∧
      (∀ w : Nat, w < z → bGravityW w 0 0 ≠ none) ∧
      gravityDeterminePosition bGravityW 2 ⟨0, 0, 5⟩ = some ⟨0, 0, (z : Int)⟩ ∧
      getNextOpenZ bGravityW 2 0 0 = (z : Int) :=
  (gravity_resolution_spec bGravityW 2 0 0 5).1 ⟨1, by decide, by decide⟩

/-- The 13 direction vectors `(dx, dy, dz)` checked by `checkWin` /
`StandardWinStrategy.checkWin` / `HeuristicAIStrategy.getDirections`, in source order. -/
def directions : List (Int × Int × Int) :=
  [(1, 0, 0), (0, 1, 0), (0, 0, 1),
   (1, 1, 0), (1, -1, 0), (1, 0, 1), (1, 0, -1), (0, 1, 1), (0, 1, -1),
   (1, 1, 1), (1, 1, -1), (1, -1, 1), (1, -1, -1)]

/-- One directional `while (true)` walk of `checkWin`: starting just after position
`(x, y, z)`, collect consecutive coordinates in direction `(dx, dy, dz)` while they
stay in bounds and hold `player`, breaking otherwise.  `fuel` bounds the number of
steps; the callers pass `size`, which the walk can never exhaust. -/
def walkLine (b : Board) (size : Nat) (p : Player) :
    Int → Int → Int → Int → Int → Int → Nat → List Coordinate
  | _, _, _, _, _, _, 0 => []
  | x, y, z, dx, dy, dz, fuel + 1 =>
    if inBounds size (x + dx) (y + dy) (z + dz) = true ∧
        b (z + dz) (y + dy) (x + dx) = some p then
      ⟨x + dx, y + dy, z + dz⟩ :: walkLine b size p (x + dx) (y + dy) (z + dz) dx dy dz fuel
    else []

/-- The same walk counting matches instead of collecting them
(the loops of `HeuristicAIStrategy.countLine`). -/
def countWalk (b : Board) (size : Nat) (p : Player) :
    Int → Int → Int → Int → Int → Int → Nat → Nat
  | _, _, _, _, _, _, 0 => 0
  | x, y, z, dx, dy, dz, fuel + 1 =>
    if inBounds size (x + dx) (y + dy) (z + dz) = true ∧
        b (z + dz) (y + dy) (x + dx) = some p then
      1 + countWalk b size p (x + dx) (y + dy) (z + dz) dx dy dz fuel
    else 0

/-- The line `checkWin` builds for one direction: the just-played cell first, then
the forward walk, then the backward walk (source: `let line = [{x,y,z}]` followed by
forward pushes, then backward pushes). -/
def lineFor (b : Board) (size : Nat) (p : Player) (c : Coordinate)
    (d : Int × Int × Int) : List Coordinate :=
  c :: (walkLine b size p c.x c.y c.z d.1 d.2.1 d.2.2 size ++
        walkLine b size p c.x c.y c.z (-d.1) (-d.2.1) (-d.2.2) size)

/-- The direction loop of `checkWin`: the first direction whose line reaches
`winLength` is returned. -/
def checkWinAux (b : Board) (size winLength : Nat) (p : Player) (c : Coordinate) :
    List (Int × Int × Int) → Option (List Coordinate)
  | [] => none
  | d :: rest =>
    if winLength ≤ (lineFor b size p c d).length then some (lineFor b size p c d)
    else checkWinAux b size winLength p c rest

/-- Source `checkWin` (gameUtils) / `StandardWinStrategy.checkWin`: read the player
at the just-played cell (no winner when empty), then scan the 13 directions. -/
def checkWin (b : Board) (size winLength : Nat) (lastMove : Coordinate) :
    Option Player × Option (List Coordinate) :=
  match b lastMove.z lastMove.y lastMove.x with
  | none => (none, none)
  | some player =>
    match checkWinAux b size winLength player lastMove directions with
    | some line => (some player, some line)
    | none => (none, none)

/-- Source `HeuristicAIStrategy.countLine`: `1` for the start cell plus the forward
and backward walk counts. -/
def countLine (b : Board) (start : Coordinate) (d : Int × Int × Int) (p : Player)
    (size : Nat) : Nat :=
  1 + countWalk b size p start.x start.y start.z d.1 d.2.1 d.2.2 size
    + countWalk b size p start.x start.y start.z (-d.1) (-d.2.1) (-d.2.2) size

/-- Source `isBoardFull` (gameUtils) and the inlined full-board check of `applyMove`:
no cell of the cube is `null`. -/
def isBoardFull (b : Board) (size : Nat) : Bool :=
  (List.range size).all fun z =>
    (List.range size).all fun y =>
      (List.range size).all fun x => (b z y x).isSome

theorem countWalk_eq_length (b : Board) (size : Nat) (p : Player) (dx dy dz : Int) :
    ∀ (fuel : Nat) (x y z : Int),
      countWalk b size p x y z dx dy dz fuel =
        (walkLine b size p x y z dx dy dz fuel).length := by
  intro fuel
  induction fuel with
  | zero => intro x y z; rfl
  | succ n ih =>
    intro x y z
    simp only [countWalk, walkLine]
    by_cases h : inBounds size (x + dx) (y + dy) (z + dz) = true ∧
        b (z + dz) (y + dy) (x + dx) = some p
    · rw [if_pos h, if_pos h, List.length_cons, ih]; omega
    · rw [if_neg h, if_neg h]; rfl

theorem walkLine_length_ge (b : Board) (size : Nat) (p : Player) (dx dy dz : Int) :
    ∀ (fuel m : Nat) (x y z : Int), m ≤ fuel →
      (∀ i : Nat, 1 ≤ i → i ≤ m →
        inBounds size (x + dx * i) (y + dy * i) (z + dz * i) = true ∧
        b (z + dz * i) (y + dy * i) (x + dx * i) = some p) →
      m ≤ (walkLine b size p x y z dx dy dz fuel).length := by
  intro fuel
  induction fuel with
  | zero => intro m x y z hm _; omega
  | succ n ih =>
    intro m x y z hm hcells
    match m with
    | 0 => exact Nat.zero_le _
    | m' + 1 =>
      have h1 := hcells 1 (le_refl 1) (by omega)
      have e1 : x + dx * ((1 : Nat) : Int) = x + dx := by push_cast; ring
      have e2 : y + dy * ((1 : Nat) : Int) = y + dy := by push_cast; ring
      have e3 : z + dz * ((1 : Nat) : Int) = z + dz := by push_cast; ring
      rw [e1, e2, e3] at h1
      simp only [walkLine]
      rw [if_pos h1, List.length_cons]
      have hrec : m' ≤ (walkLine b size p (x + dx) (y + dy) (z + dz) dx dy dz n).length := by
        refine ih m' (x + dx) (y + dy) (z + dz) (by omega) ?_
        intro i hi1 hi2
        have h2 := hcells (i + 1) (by omega) (by omega)
        have f1 : x + dx * ((i + 1 : Nat) : Int) = x + dx + dx * (i : Nat) := by
          push_cast; ring
        have f2 : y + dy * ((i + 1 : Nat) : Int) = y + dy + dy * (i : Nat) := by
          push_cast; ring
        have f3 : z + dz * ((i + 1 : Nat) : Int) = z + dz + dz * (i : Nat) := by
          push_cast; ring
        rw [f1, f2, f3] at h2
        exact h2
      omega

theorem walkLine_mem (b : Board) (size : Nat) (p : Player) (dx dy dz : Int) :
    ∀ (fuel : Nat) (x y z : Int) (q : Coordinate),
      q ∈ walkLine b size p x y z dx dy dz fuel ↔
        ∃ i : Nat, 1 ≤ i ∧ i ≤ fuel ∧
          q = ⟨x + dx * i, y + dy * i, z + dz * i⟩ ∧
          ∀ j : Nat, 1 ≤ j → j ≤ i →
            inBounds size (x + dx * j) (y + dy * j) (z + dz * j) = true ∧
            b (z + dz * j) (y + dy * j) (x + dx * j) = some p := by
  intro fuel
  induction fuel with
  | zero =>
    intro x y z q
    simp only [walkLine, List.not_mem_nil, false_iff]
    rintro ⟨i, hi1, hi2, -⟩
    omega
  | succ n ih =>
    intro x y z q
    have e1 : x + dx * ((1 : Nat) : Int) = x + dx := by push_cast; ring
    have e2 : y + dy * ((1 : Nat) : Int) = y + dy := by push_cast; ring
    have e3 : z + dz * ((1 : Nat) : Int) = z + dz := by push_cast; ring
    simp only [walkLine]
    by_cases hc : inBounds size (x + dx) (y + dy) (z + dz) = true ∧
        b (z + dz) (y + dy) (x + dx) = some p
    · rw [if_pos hc]
      constructor
      · intro hq
        rcases List.mem_cons.mp hq with hq | hq
        · refine ⟨1, le_refl 1, by omega, ?_, ?_⟩
          · rw [e1, e2, e3]; exact hq
          · intro j hj1 hj2
            have : j = 1 := by omega
            subst this
            rw [e1, e2, e3]
            exact hc
        · rcases (ih (x + dx) (y + dy) (z + dz) q).mp hq with ⟨i, hi1, hi2, hqe, hgood⟩
          refine ⟨i + 1, by omega, by omega, ?_, ?_⟩
          · have f1 : x + dx + dx * (i : Nat) = x + dx * ((i + 1 : Nat) : Int) := by
              push_cast; ring
            have f2 : y + dy + dy * (i : Nat) = y + dy * ((i + 1 : Nat) : Int) := by
              push_cast; ring
            have f3 : z + dz + dz * (i : Nat) = z + dz * ((i + 1 : Nat) : Int) := by
              push_cast; ring
            rw [hqe]
            simp only [f1, f2, f3]
          · intro j hj1 hj2
            match j, hj1 with
            | 1, _ => rw [e1, e2, e3]; exact hc
            | j' + 2, _ =>
              have hg := hgood (j' + 1) (by omega) (by omega)
              have g1 : x + dx + dx * ((j' + 1 : Nat) : Int) =
                  x + dx * ((j' + 2 : Nat) : Int) := by push_cast; ring
              have g2 : y + dy + dy * ((j' + 1 : Nat) : Int) =
                  y + dy * ((j' + 2 : Nat) : Int) := by push_cast; ring
              have g3 : z + dz + dz * ((j' + 1 : Nat) : Int) =
                  z + dz * ((j' + 2 : Nat) : Int) := by push_cast; ring
              rw [g1, g2, g3] at hg
              exact hg
      · rintro ⟨i, hi1, hi2, hqe, hgood⟩
        match i, hi1 with
        | 1, _ =>
          rw [e1, e2, e3] at hqe
          exact List.mem_cons.mpr (Or.inl hqe)
        | i' + 2, _ =>
          refine List.mem_cons.mpr (Or.inr ?_)
          refine (ih (x + dx) (y + dy) (z + dz) q).mpr ⟨i' + 1, by omega, by omega, ?_, ?_⟩
          · have f1 : x + dx + dx * ((i' + 1 : Nat) : Int) =
                x + dx * ((i' + 2 : Nat) : Int) := by push_cast; ring
            have f2 : y + dy + dy * ((i' + 1 : Nat) : Int) =
                y + dy * ((i' + 2 : Nat) : Int) := by push_cast; ring
            have f3 : z + dz + dz * ((i' + 1 : Nat) : Int) =
                z + dz * ((i' + 2 : Nat) : Int) := by push_cast; ring
            rw [f1, f2, f3]
            exact hqe
          · intro j hj1 hj2
            have hg := hgood (j + 1) (by omega) (by omega)
            have g1 : x + dx * ((j + 1 : Nat) : Int) = x + dx + dx * (j : Nat) := by
              push_cast; ring
            have g2 : y + dy * ((j + 1 : Nat) : Int) = y + dy + dy * (j : Nat) := by
              push_cast; ring
            have g3 : z + dz * ((j + 1 : Nat) : Int) = z + dz + dz * (j : Nat) := by
              push_cast; ring
            rw [g1, g2, g3] at hg
            exact hg
    · rw [if_neg hc]
      simp only [List.not_mem_nil, false_iff]
      rintro ⟨i, hi1, hi2, -, hgood⟩
      have h1 := hgood 1 (le_refl 1) hi1
      rw [e1, e2, e3] at h1
      exact hc h1

theorem directions_comp : ∀ d ∈ directions, d.1 = 1 ∨ d.2.1 = 1 ∨ d.2.2 = 1 := by
  decide

theorem checkWinAux_some_spec (b : Board) (size L : Nat) (p : Player) (c : Coordinate) :
    ∀ (dirs : List (Int × Int × Int)) (line : List Coordinate),
      checkWinAux b size L p c dirs = some line →
      ∃ d ∈ dirs, line = lineFor b size p c d ∧ L ≤ line.length := by
  intro dirs
  induction dirs with
  | nil => intro line h; cases h
  | cons d rest ih =>
    intro line h
    simp only [checkWinAux] at h
    by_cases hlen : L ≤ (lineFor b size p c d).length
    · rw [if_pos hlen, Option.some_inj] at h
      exact ⟨d, List.mem_cons_self d rest, h.symm, h ▸ hlen⟩
    · rw [if_neg hlen] at h
      obtain ⟨d', hd', he, hl⟩ := ih line h
      exact ⟨d', List.mem_cons_of_mem d hd', he, hl⟩

theorem checkWinAux_isSome_of (b : Board) (size L : Nat) (p : Player) (c : Coordinate) :
    ∀ dirs : List (Int × Int × Int),
      (∃ d ∈ dirs, L ≤ (lineFor b size p c d).length) →
      ∃ line, checkWinAux b size L p c dirs = some line := by
  intro dirs
  induction dirs with
  | nil => rintro ⟨d, hd, -⟩; cases hd
  | cons d rest ih =>
    rintro ⟨d', hd', hlen⟩
    simp only [checkWinAux]
    by_cases h : L ≤ (lineFor b size p c d).length
    · exact ⟨_, by rw [if_pos h]⟩
    · rw [if_neg h]
      apply ih
      rcases List.mem_cons.mp hd' with rfl | hmem
      · exact absurd hlen h
      · exact ⟨d', hmem, hlen⟩

/-- Claim C1: for every board, win length, and just-played coordinate lying on a
contiguous line of `winLength` cells (cell `k` of a run starting at `s` in direction
`d`, all holding player `q`), `checkWin` on that board and coordinate returns `q` as
winner together with a winning line of length ≥ `winLength` that contains the
just-played coordinate. -/
theorem checkWin_detects_line (b : Board) (size winLength : Nat) (q : Player)
    (d : Int × Int × Int) (s : Coordinate) (k : Nat) (c : Coordinate)
    (hd : d ∈ directions) (hk : k < winLength)
    (hc : c = ⟨s.x + d.1 * k, s.y + d.2.1 * k, s.z + d.2.2 * k⟩)
    (hcells : ∀ i : Nat, i < winLength →
      inBounds size (s.x + d.1 * i) (s.y + d.2.1 * i) (s.z + d.2.2 * i) = true ∧
      b (s.z + d.2.2 * i) (s.y + d.2.1 * i) (s.x + d.1 * i) = some q) :
    (checkWin b size winLength c).1 = some q ∧
    ∃ line, (checkWin b size winLength c).2 = some line ∧
      winLength ≤ line.length ∧ c ∈ line := by
  subst hc
  have hplayer := (hcells k hk).2
  -- winLength fits in the cube: some component of d is 1 and moves monotonically.
  have c0 := (hcells 0 (by omega)).1
  have cL := (hcells (winLength - 1) (by omega)).1
  simp only [Nat.cast_zero, mul_zero, add_zero] at c0
  rw [inBounds_iff] at c0 cL
  obtain ⟨c0x, -, c0y, -, c0z, -⟩ := c0
  obtain ⟨-, cLx, -, cLy, -, cLz⟩ := cL
  have hLsize : winLength ≤ size := by
    rcases directions_comp d hd with h | h | h
    · rw [h, one_mul] at cLx; omega
    · rw [h, one_mul] at cLy; omega
    · rw [h, one_mul] at cLz; omega
  -- the forward walk from c covers at least the remaining winLength - 1 - k cells
  have hf : winLength - 1 - k ≤
      (walkLine b size q (s.x + d.1 * k) (s.y + d.2.1 * k) (s.z + d.2.2 * k)
        d.1 d.2.1 d.2.2 size).length := by
    refine walkLine_length_ge b size q d.1 d.2.1 d.2.2 size (winLength - 1 - k)
      (s.x + d.1 * k) (s.y + d.2.1 * k) (s.z + d.2.2 * k) (by omega) ?_
    intro i hi1 hi2
    have h2 := hcells (k + i) (by omega)
    have e1 : s.x + d.1 * ((k + i : Nat) : Int) = s.x + d.1 * (k : Nat) + d.1 * (i : Nat) := by
      push_cast; ring
    have e2 : s.y + d.2.1 * ((k + i : Nat) : Int) =
        s.y + d.2.1 * (k : Nat) + d.2.1 * (i : Nat) := by push_cast; ring
    have e3 : s.z + d.2.2 * ((k + i : Nat) : Int) =
        s.z + d.2.2 * (k : Nat) + d.2.2 * (i : Nat) := by push_cast; ring
    rw [e1, e2, e3] at h2
    exact h2
  -- the backward walk from c covers at least the k cells before c
  have hb : k ≤
      (walkLine b size q (s.x + d.1 * k) (s.y + d.2.1 * k) (s.z + d.2.2 * k)
        (-d.1) (-d.2.1) (-d.2.2) size).length := by
    refine walkLine_length_ge b size q (-d.1) (-d.2.1) (-d.2.2) size k
      (s.x + d.1 * k) (s.y + d.2.1 * k) (s.z + d.2.2 * k) (by omega) ?_
    intro j hj1 hj2
    have h2 := hcells (k - j) (by omega)
    have ecast : ((k - j : Nat) : Int) = (k : Nat) - (j : Nat) := by omega
    have e1 : s.x + d.1 * ((k - j : Nat) : Int) =
        s.x + d.1 * (k : Nat) + -d.1 * (j : Nat) := by rw [ecast]; ring
    have e2 : s.y + d.2.1 * ((k - j : Nat) : Int) =
        s.y + d.2.1 * (k : Nat) + -d.2.1 * (j : Nat) := by rw [ecast]; ring
    have e3 : s.z + d.2.2 * ((k - j : Nat) : Int) =
        s.z + d.2.2 * (k : Nat) + -d.2.2 * (j : Nat) := by rw [ecast]; ring
    rw [e1, e2, e3] at h2
    exact h2
  have hlen_d : winLength ≤
      (lineFor b size q ⟨s.x + d.1 * k, s.y + d.2.1 * k, s.z + d.2.2 * k⟩ d).length := by
    simp only [lineFor, List.length_cons, List.length_append]
    omega
  obtain ⟨line, hline⟩ :=
    checkWinAux_isSome_of b size winLength q
      ⟨s.x + d.1 * k, s.y + d.2.1 * k, s.z + d.2.2 * k⟩ directions ⟨d, hd, hlen_d⟩
  obtain ⟨d', hd', hle, hll⟩ :=
    checkWinAux_some_spec b size winLength q
      ⟨s.x + d.1 * k, s.y + d.2.1 * k, s.z + d.2.2 * k⟩ directions line hline
  have hcw : checkWin b size winLength
      ⟨s.x + d.1 * k, s.y + d.2.1 * k, s.z + d.2.2 * k⟩ = (some q, some line) := by
    simp only [checkWin]
    rw [hplayer]
    dsimp only
    rw [hline]
  refine ⟨by rw [hcw], line, by rw [hcw], hll, ?_⟩
  rw [hle]
  exact List.mem_cons_self _ _

/-- Concrete board holding a black row at z = 0, y = 0, x = 0..2 of a 3-cube. -/
def bRow3 : Board := fun z y x =>
  if z = 0 ∧ y = 0 ∧ (x = 0 ∨ x = 1 ∨ x = 2) then some Player.black else none

theorem checkWin_detects_line_witness :
    (checkWin bRow3 3 3 ⟨1, 0, 0⟩).1 = some Player.black ∧
    ∃ line, (checkWin bRow3 3 3 ⟨1, 0, 0⟩).2 = some line ∧
      3 ≤ line.length ∧ (⟨1, 0, 0⟩ : Coordinate) ∈ line :=
  checkWin_detects_line bRow3 3 3 Player.black (1, 0, 0) ⟨0, 0, 0⟩ 1 ⟨1, 0, 0⟩
    (by decide) (by decide) (by decide) (by decide)

/-- The list steps through consecutive coordinates: each entry is the previous one
translated by `d` (the head is `start` translated by `d`). -/
def chainFrom (d : Int × Int × Int) : Coordinate → List Coordinate → Prop
  | _, [] => True
  | c, q :: rest =>
    q = ⟨c.x + d.1, c.y + d.2.1, c.z + d.2.2⟩ ∧ chainFrom d q rest

theorem walkLine_chain (b : Board) (size : Nat) (p : Player) (dx dy dz : Int) :
    ∀ (fuel : Nat) (x y z : Int),
      chainFrom (dx, dy, dz) ⟨x, y, z⟩ (walkLine b size p x y z dx dy dz fuel) := by
  intro fuel
  induction fuel with
  | zero => intro x y z; trivial
  | succ n ih =>
    intro x y z
    simp only [walkLine]
    by_cases hc : inBounds size (x + dx) (y + dy) (z + dz) = true ∧
        b (z + dz) (y + dy) (x + dx) = some p
    · rw [if_pos hc]
      exact ⟨rfl, ih (x + dx) (y + dy) (z + dz)⟩
    · rw [if_neg hc]
      trivial

theorem unit_step_bound {size : Nat} {a e : Int} (ha0 : 0 ≤ a) (ha1 : a < size)
    (he : e = 1 ∨ e = -1) {i : Nat}
    (h : 0 ≤ a + e * i ∧ a + e * i < size) : i ≤ size := by
  rcases he with rfl | rfl
  · rw [one_mul] at h; omega
  · have hr : a + -1 * (i : Int) = a - i := by ring
    rw [hr] at h; omega

theorem walkLine_mem_size (b : Board) (size : Nat) (p : Player) (dx dy dz : Int)
    (x y z : Int)
    (hbound : ∀ i : Nat, 1 ≤ i →
      inBounds size (x + dx * i) (y + dy * i) (z + dz * i) = true → i ≤ size)
    (q : Coordinate) :
    q ∈ walkLine b size p x y z dx dy dz size ↔
      ∃ i : Nat, 1 ≤ i ∧ q = ⟨x + dx * i, y + dy * i, z + dz * i⟩ ∧
        ∀ j : Nat, 1 ≤ j → j ≤ i →
          inBounds size (x + dx * j) (y + dy * j) (z + dz * j) = true ∧
          b (z + dz * j) (y + dy * j) (x + dx * j) = some p := by
  rw [walkLine_mem]
  constructor
  · rintro ⟨i, h1, -, hq, hg⟩
    exact ⟨i, h1, hq, hg⟩
  · rintro ⟨i, h1, hq, hg⟩
    exact ⟨i, h1, hbound i h1 (hg i h1 (le_refl i)).1, hq, hg⟩

/-- Modelled from the spec: membership in the maximal connected run of `p`-stones
through `c` along direction `d` — the set of cells `c + j·d` (j ∈ ℤ) such that every
cell between `c` and that cell (inclusive) is in bounds and holds `p`. -/
def inMaximalRun (b : Board) (size : Nat) (p : Player) (c : Coordinate)
    (d : Int × Int × Int) (q : Coordinate) : Prop :=
  ∃ j : Int, q = ⟨c.x + d.1 * j, c.y + d.2.1 * j, c.z + d.2.2 * j⟩ ∧
    ∀ t : Int, ((0 ≤ t ∧ t ≤ j) ∨ (j ≤ t ∧ t ≤ 0)) →
      inBounds size (c.x + d.1 * t) (c.y + d.2.1 * t) (c.z + d.2.2 * t) = true ∧
      b (c.z + d.2.2 * t) (c.y + d.2.1 * t) (c.x + d.1 * t) = some p

theorem lineFor_mem_iff (b : Board) (size : Nat) (p : Player) (c : Coordinate)
    (dx dy dz : Int) (hd : (dx, dy, dz) ∈ directions)
    (hcb : inBounds size c.x c.y c.z = true)
    (hp : b c.z c.y c.x = some p) (q : Coordinate) :
    q ∈ lineFor b size p c (dx, dy, dz) ↔
      inMaximalRun b size p c (dx, dy, dz) q := by
  obtain ⟨cx, cy, cz⟩ := c
  dsimp only at hcb hp ⊢
  obtain ⟨hx0, hx1, hy0, hy1, hz0, hz1⟩ := inBounds_iff.mp hcb
  have hcenter : ∀ t : Int, t = 0 →
      inBounds size (cx + dx * t) (cy + dy * t) (cz + dz * t) = true ∧
      b (cz + dz * t) (cy + dy * t) (cx + dx * t) = some p := by
    rintro t rfl
    simpa [mul_zero, add_zero] using ⟨hcb, hp⟩
  have hboundF : ∀ i : Nat, 1 ≤ i →
      inBounds size (cx + dx * i) (cy + dy * i) (cz + dz * i) = true → i ≤ size := by
    intro i hi hib
    obtain ⟨a1, a2, b1, b2, g1, g2⟩ := inBounds_iff.mp hib
    rcases directions_comp (dx, dy, dz) hd with h | h | h
    · dsimp only at h
      rw [h] at a1 a2
      exact unit_step_bound hx0 hx1 (Or.inl rfl) ⟨a1, a2⟩
    · dsimp only at h
      rw [h] at b1 b2
      exact unit_step_bound hy0 hy1 (Or.inl rfl) ⟨b1, b2⟩
    · dsimp only at h
      rw [h] at g1 g2
      exact unit_step_bound hz0 hz1 (Or.inl rfl) ⟨g1, g2⟩
  have hboundB : ∀ i : Nat, 1 ≤ i →
      inBounds size (cx + -dx * i) (cy + -dy * i) (cz + -dz * i) = true → i ≤ size := by
    intro i hi hib
    obtain ⟨a1, a2, b1, b2, g1, g2⟩ := inBounds_iff.mp hib
    rcases directions_comp (dx, dy, dz) hd with h | h | h
    · dsimp only at h
      rw [h] at a1 a2
      exact unit_step_bound hx0 hx1 (Or.inr rfl) ⟨a1, a2⟩
    · dsimp only at h
      rw [h] at b1 b2
      exact unit_step_bound hy0 hy1 (Or.inr rfl) ⟨b1, b2⟩
    · dsimp only at h
      rw [h] at g1 g2
      exact unit_step_bound hz0 hz1 (Or.inr rfl) ⟨g1, g2⟩
  constructor
  · intro hq
    simp only [lineFor, List.mem_cons, List.mem_append] at hq
    rcases hq with rfl | hq | hq
    · refine ⟨0, by simp, fun t ht => hcenter t (by omega)⟩
    · rw [walkLine_mem_size b size p dx dy dz cx cy cz hboundF] at hq
      obtain ⟨i, hi1, hqe, hg⟩ := hq
      refine ⟨(i : Int), hqe, ?_⟩
      intro t ht
      have ht' : 0 ≤ t ∧ t ≤ (i : Int) := by omega
      by_cases ht0 : t = 0
      · exact hcenter t ht0
      · have h1t : 1 ≤ t.toNat := by omega
        have h2t : t.toNat ≤ i := by omega
        have hgt := hg t.toNat h1t h2t
        have ec : ((t.toNat : Nat) : Int) = t := by omega
        rw [ec] at hgt
        exact hgt
    · rw [walkLine_mem_size b size p (-dx) (-dy) (-dz) cx cy cz hboundB] at hq
      obtain ⟨i, hi1, hqe, hg⟩ := hq
      refine ⟨-(i : Int), ?_, ?_⟩
      · have e1 : cx + dx * -(i : Int) = cx + -dx * (i : Int) := by ring
        have e2 : cy + dy * -(i : Int) = cy + -dy * (i : Int) := by ring
        have e3 : cz + dz * -(i : Int) = cz + -dz * (i : Int) := by ring
        rw [e1, e2, e3]
        exact hqe
      · intro t ht
        have ht' : -(i : Int) ≤ t ∧ t ≤ 0 := by omega
        by_cases ht0 : t = 0
        · exact hcenter t ht0
        · have h1t : 1 ≤ (-t).toNat := by omega
          have h2t : (-t).toNat ≤ i := by omega
          have hgt := hg (-t).toNat h1t h2t
          have ec : (((-t).toNat : Nat) : Int) = -t := by omega
          have e1 : cx + -dx * (((-t).toNat : Nat) : Int) = cx + dx * t := by
            rw [ec]; ring
          have e2 : cy + -dy * (((-t).toNat : Nat) : Int) = cy + dy * t := by
            rw [ec]; ring
          have e3 : cz + -dz * (((-t).toNat : Nat) : Int) = cz + dz * t := by
            rw [ec]; ring
          rw [e1, e2, e3] at hgt
          exact hgt
  · rintro ⟨j, hqe, hgood⟩
    simp only [lineFor, List.mem_cons, List.mem_append]
    rcases lt_trichotomy j 0 with hj | rfl | hj
    · right; right
      rw [walkLine_mem_size b size p (-dx) (-dy) (-dz) cx cy cz hboundB]
      have ec : (((-j).toNat : Nat) : Int) = -j := by omega
      refine ⟨(-j).toNat, by omega, ?_, ?_⟩
      · have e1 : cx + -dx * (((-j).toNat : Nat) : Int) = cx + dx * j := by
          rw [ec]; ring
        have e2 : cy + -dy * (((-j).toNat : Nat) : Int) = cy + dy * j := by
          rw [ec]; ring
        have e3 : cz + -dz * (((-j).toNat : Nat) : Int) = cz + dz * j := by
          rw [ec]; ring
        rw [e1, e2, e3]
        exact hqe
      · intro jj h1 h2
        have hgt := hgood (-(jj : Int)) (by omega)
        have e1 : cx + dx * -(jj : Int) = cx + -dx * (jj : Int) := by ring
        have e2 : cy + dy * -(jj : Int) = cy + -dy * (jj : Int) := by ring
        have e3 : cz + dz * -(jj : Int) = cz + -dz * (jj : Int) := by ring
        rw [e1, e2, e3] at hgt
        exact hgt
    · left
      rw [hqe]
      simp
    · right; left
      rw [walkLine_mem_size b size p dx dy dz cx cy cz hboundF]
      have ec : ((j.toNat : Nat) : Int) = j := by omega
      refine ⟨j.toNat, by omega, ?_, ?_⟩
      · rw [ec]
        exact hqe
      · intro jj h1 h2
        exact hgood (jj : Int) (by omega)

/-- Modelled from the spec: the claim's order requirement — each consecutive pair of
coordinates of the list differs by the direction vector `d`. -/
def stepsBy (d : Int × Int × Int) : List Coordinate → Bool
  | [] => true
  | [_] => true
  | q1 :: q2 :: rest =>
    decide (q2 = ⟨q1.x + d.1, q1.y + d.2.1, q1.z + d.2.2⟩) && stepsBy d (q2 :: rest)

/-- Claim C4 counterexample: on a 3-cube with a black row at z = 0, y = 0,
x = 0..2 and just-played cell (1,0,0), `checkWin` returns the winning line
[(1,0,0), (2,0,0), (0,0,0)] — the just-played cell first, then the forward walk,
then the backward walk — whose cells are NOT listed in contiguous spatial order
along any direction vector of the fixed list. -/
theorem checkWin_contiguous_order_counterexample :
    checkWin bRow3 3 3 ⟨1, 0, 0⟩ =
      (some Player.black, some [⟨1, 0, 0⟩, ⟨2, 0, 0⟩, ⟨0, 0, 0⟩]) ∧
    ¬ ∃ d ∈ directions,
        stepsBy d [⟨1, 0, 0⟩, ⟨2, 0, 0⟩, ⟨0, 0, 0⟩] = true := by
  decide

/-- Claim C4 (amended): whenever `checkWin` returns a non-null winner for an
in-bounds just-played cell, the returned line is the just-played cell followed by
the forward walk (consecutive cells each stepping by `+d`) and then the backward
walk (stepping by `−d`) for some direction `d` of the fixed list — center-first
order rather than contiguous spatial order — and its set of cells is exactly the
maximal connected run of the winner's stones through the just-played cell along
`d`. -/
theorem checkWin_line_shape (b : Board) (size L : Nat) (c : Coordinate)
    (p : Player) (line : List Coordinate)
    (hw : checkWin b size L c = (some p, some line))
    (hcb : inBounds size c.x c.y c.z = true) :
    ∃ d ∈ directions, ∃ f bk : List Coordinate,
      line = c :: (f ++ bk) ∧
      chainFrom d c f ∧
      chainFrom (-d.1, -d.2.1, -d.2.2) c bk ∧
      ∀ q : Coordinate, q ∈ line ↔ inMaximalRun b size p c d q := by
  unfold checkWin at hw
  cases hp : b c.z c.y c.x with
  | none =>
    rw [hp] at hw
    simp at hw
  | some pl =>
    rw [hp] at hw
    dsimp only at hw
    cases haux : checkWinAux b size L pl c directions with
    | none =>
      rw [haux] at hw
      simp at hw
    | some l' =>
      rw [haux] at hw
      simp only [Prod.mk.injEq, Option.some_inj] at hw
      obtain ⟨hpl, hl⟩ := hw
      obtain ⟨d, hd, hle, -⟩ :=
        checkWinAux_some_spec b size L pl c directions l' haux
      rw [hpl] at hle hp
      rw [hl] at hle
      obtain ⟨dx, dy, dz⟩ := d
      refine ⟨(dx, dy, dz), hd,
        walkLine b size p c.x c.y c.z dx dy dz size,
        walkLine b size p c.x c.y c.z (-dx) (-dy) (-dz) size, ?_, ?_, ?_, ?_⟩
      · exact hle
      · exact walkLine_chain b size p dx dy dz size c.x c.y c.z
      · exact walkLine_chain b size p (-dx) (-dy) (-dz) size c.x c.y c.z
      · intro q
        rw [hle]
        exact lineFor_mem_iff b size p c dx dy dz hd hcb hp q

theorem checkWin_line_shape_witness :
    ∃ d ∈ directions, ∃ f bk : List Coordinate,
      ([⟨1, 0, 0⟩, ⟨2, 0, 0⟩, ⟨0, 0, 0⟩] : List Coordinate) =
        (⟨1, 0, 0⟩ : Coordinate) :: (f ++ bk) ∧
      chainFrom d ⟨1, 0, 0⟩ f ∧
      chainFrom (-d.1, -d.2.1, -d.2.2) ⟨1, 0, 0⟩ bk ∧
      ∀ q : Coordinate, q ∈ ([⟨1, 0, 0⟩, ⟨2, 0, 0⟩, ⟨0, 0, 0⟩] : List Coordinate) ↔
        inMaximalRun bRow3 3 Player.black ⟨1, 0, 0⟩ d q :=
  checkWin_line_shape bRow3 3 3 ⟨1, 0, 0⟩ Player.black
    [⟨1, 0, 0⟩, ⟨2, 0, 0⟩, ⟨0, 0, 0⟩] (by decide) (by decide)

theorem setCell_set_none (b : Board) (c : Coordinate) (v : CellValue)
    (h : b c.z c.y c.x = none) :
    setCell (setCell b c v) c none = b := by
  funext z y x
  simp only [setCell]
  by_cases hc : z = c.z ∧ y = c.y ∧ x = c.x
  · rw [if_pos hc]
    obtain ⟨rfl, rfl, rfl⟩ := hc
    exact h.symm
  · rw [if_neg hc, if_neg hc]

/-- Source `HeuristicAIStrategy.evaluateLineStrength`: temporarily place the stone,
take the longest `countLine` over the 13 directions (`maxLength` starts at 0), then
revert the cell to `null`.  The mutation is threaded explicitly: the second
component is the board the call leaves behind. -/
def evaluateLineStrength (b : Board) (size : Nat) (move : Coordinate) (p : Player)
    (_winLength : Nat) : Nat × Board :=
  let b1 := setCell b move (some p)
  ((directions.map fun d => countLine b1 move d p size).foldl max 0,
   setCell b1 move none)

/-- Source `HeuristicAIStrategy.evaluatePotential`: temporarily place the stone, sum
`len * len` over the 13 directions for runs with `len > 1`, then revert the cell. -/
def evaluatePotential (b : Board) (size : Nat) (move : Coordinate) (p : Player)
    (_winLength : Nat) : Nat × Board :=
  let b1 := setCell b move (some p)
  (directions.foldl
     (fun acc d =>
       let len := countLine b1 move d p size
       if 1 < len then acc + len * len else acc) 0,
   setCell b1 move none)

/-- Step 1 of `calculateMove`: all legal gravity columns with their landing cells,
x outer loop, y inner loop. -/
def validMoves (b : Board) (size : Nat) : List Coordinate :=
  (List.range size).flatMap fun x =>
    (List.range size).filterMap fun y =>
      match gravityZ b size x y with
      | some z => some ⟨(x : Int), (y : Int), (z : Int)⟩
      | none => none

/-- Loops 2 and 3 of `calculateMove`: return the first valid move whose simulated
`evaluateLineStrength` reaches `winLength`, threading the board through the
simulate-and-revert calls. -/
def findFirstStrong (size : Nat) (p : Player) (winLength : Nat) :
    Board → List Coordinate → Option Coordinate × Board
  | b, [] => (none, b)
  | b, m :: rest =>
    let r := evaluateLineStrength b size m p winLength
    if winLength ≤ r.1 then (some m, r.2)
    else findFirstStrong size p winLength r.2 rest

/-- Loop 4 of `calculateMove`: heuristic scoring.  `cent m` stands for the
real-valued centrality term `size * Math.sqrt(3) - dist(m, center)` and `jitter idx`
for the `Math.random()` jitter of the idx-th iteration; both are supplied as
ℚ-valued oracles since the source values are irrational resp. random.  `best` and
`maxScore` mirror `bestMove` and `maxScore`, with `none` encoding the initial
`-Infinity` (any first score beats it). -/
def scoreMoves (size winLength : Nat) (p opp : Player) (cent : Coordinate → ℚ)
    (jitter : Nat → ℚ) :
    Board → List Coordinate → Nat → Coordinate → Option ℚ → Coordinate × Board
  | b, [], _, best, _ => (best, b)
  | b, m :: rest, idx, best, maxScore =>
    let r1 := evaluatePotential b size m p winLength
    let r2 := evaluatePotential r1.2 size m opp winLength
    let score := cent m + (r1.1 : ℚ) * 10 + (r2.1 : ℚ) * 8 + jitter idx
    match maxScore with
    | none =>
      scoreMoves size winLength p opp cent jitter r2.2 rest (idx + 1) m (some score)
    | some q =>
      if q < score then
        scoreMoves size winLength p opp cent jitter r2.2 rest (idx + 1) m (some score)
      else
        scoreMoves size winLength p opp cent jitter r2.2 rest (idx + 1) best (some q)

/-- Source `HeuristicAIStrategy.calculateMove`: enumerate valid moves, then
instant win, instant block, and heuristic scoring in that order; `(0, 0)` when no
valid move exists.  Returns the chosen column and the board left behind by all the
simulate-and-revert calls. -/
def calculateMove (b : Board) (size : Nat) (currentPlayer : Player)
    (winLength : Nat) (cent : Coordinate → ℚ) (jitter : Nat → ℚ) :
    (Int × Int) × Board :=
  match validMoves b size with
  | [] => ((0, 0), b)
  | m0 :: rest =>
    let w := findFirstStrong size currentPlayer winLength b (m0 :: rest)
    match w.1 with
    | some m => ((m.x, m.y), w.2)
    | none =>
      let bl := findFirstStrong size currentPlayer.other winLength w.2 (m0 :: rest)
      match bl.1 with
      | some m => ((m.x, m.y), bl.2)
      | none =>
        let sc := scoreMoves size winLength currentPlayer currentPlayer.other cent
          jitter bl.2 (m0 :: rest) 0 m0 none
        ((sc.1.x, sc.1.y), sc.2)

/-- Placing `p`'s stone at `m` creates a run of length ≥ `L` through `m`: some
direction's `countLine` on the board-with-stone reaches `L`. -/
def createsRun (b : Board) (size : Nat) (m : Coordinate) (p : Player) (L : Nat) :
    Prop :=
  ∃ d ∈ directions, L ≤ countLine (setCell b m (some p)) m d p size

instance (b : Board) (size : Nat) (m : Coordinate) (p : Player) (L : Nat) :
    Decidable (createsRun b size m p L) := by
  unfold createsRun; infer_instance

theorem validMoves_cells_empty (b : Board) (size : Nat) :
    ∀ m ∈ validMoves b size, b m.z m.y m.x = none := by
  intro m hm
  simp only [validMoves, List.mem_flatMap, List.mem_filterMap] at hm
  obtain ⟨x, -, y, -, hmap⟩ := hm
  cases hz : gravityZ b size x y with
  | none => rw [hz] at hmap; cases hmap
  | some z =>
    rw [hz] at hmap
    cases hmap
    exact (gravityZ_eq_some.mp hz).2.1

theorem evaluateLineStrength_board {b : Board} {size : Nat} {m : Coordinate}
    {p : Player} {L : Nat} (h : b m.z m.y m.x = none) :
    (evaluateLineStrength b size m p L).2 = b :=
  setCell_set_none b m (some p) h

theorem evaluatePotential_board {b : Board} {size : Nat} {m : Coordinate}
    {p : Player} {L : Nat} (h : b m.z m.y m.x = none) :
    (evaluatePotential b size m p L).2 = b :=
  setCell_set_none b m (some p) h

theorem le_foldl_max (L : Nat) :
    ∀ (l : List Nat) (a : Nat), L ≤ l.foldl max a ↔ L ≤ a ∨ ∃ x ∈ l, L ≤ x := by
  intro l
  induction l with
  | nil => intro a; simp
  | cons x xs ih =>
    intro a
    simp only [List.foldl_cons]
    rw [ih, le_max_iff]
    constructor
    · rintro ((h | h) | ⟨y, hy, hLy⟩)
      · exact Or.inl h
      · exact Or.inr ⟨x, List.mem_cons_self x xs, h⟩
      · exact Or.inr ⟨y, List.mem_cons_of_mem x hy, hLy⟩
    · rintro (h | ⟨y, hy, hLy⟩)
      · exact Or.inl (Or.inl h)
      · rcases List.mem_cons.mp hy with rfl | hmem
        · exact Or.inl (Or.inr hLy)
        · exact Or.inr ⟨y, hmem, hLy⟩

theorem evaluateLineStrength_ge_iff {b : Board} {size : Nat} {m : Coordinate}
    {p : Player} {L : Nat} :
    L ≤ (evaluateLineStrength b size m p L).1 ↔ createsRun b size m p L := by
  simp only [evaluateLineStrength]
  rw [le_foldl_max]
  constructor
  · rintro (h0 | ⟨v, hv, hLv⟩)
    · have hL0 : L = 0 := by omega
      subst hL0
      exact ⟨(1, 0, 0), by decide, Nat.zero_le _⟩
    · obtain ⟨d, hd, rfl⟩ := List.mem_map.mp hv
      exact ⟨d, hd, hLv⟩
  · rintro ⟨d, hd, hLd⟩
    exact Or.inr ⟨_, List.mem_map_of_mem _ hd, hLd⟩

theorem findFirstStrong_spec (size : Nat) (p : Player) (L : Nat) :
    ∀ (moves : List Coordinate) (b : Board),
      (∀ m ∈ moves, b m.z m.y m.x = none) →
      findFirstStrong size p L b moves =
        (moves.find? fun m => decide (L ≤ (evaluateLineStrength b size m p L).1), b) := by
  intro moves
  induction moves with
  | nil => intro b _; rfl
  | cons m rest ih =>
    intro b h
    have hm : b m.z m.y m.x = none := h m (List.mem_cons_self m rest)
    have hres : (evaluateLineStrength b size m p L).2 = b :=
      evaluateLineStrength_board hm
    simp only [findFirstStrong]
    by_cases hL : L ≤ (evaluateLineStrength b size m p L).1
    · rw [if_pos hL, List.find?_cons_of_pos _ (by simpa using hL), hres]
    · rw [if_neg hL, List.find?_cons_of_neg _ (by simpa using hL), hres,
        ih b fun m' hm' => h m' (List.mem_cons_of_mem m hm')]

theorem scoreMoves_board (size L : Nat) (p opp : Player) (cent : Coordinate → ℚ)
    (jitter : Nat → ℚ) :
    ∀ (moves : List Coordinate) (b : Board) (idx : Nat) (best : Coordinate)
      (ms : Option ℚ),
      (∀ m ∈ moves, b m.z m.y m.x = none) →
      (scoreMoves size L p opp cent jitter b moves idx best ms).2 = b := by
  intro moves
  induction moves with
  | nil => intro b idx best ms _; rfl
  | cons m rest ih =>
    intro b idx best ms h
    have hm : b m.z m.y m.x = none := h m (List.mem_cons_self m rest)
    have h1 : (evaluatePotential b size m p L).2 = b := evaluatePotential_board hm
    have hrest : ∀ m' ∈ rest, b m'.z m'.y m'.x = none :=
      fun m' hm' => h m' (List.mem_cons_of_mem m hm')
    simp only [scoreMoves]
    rw [h1]
    have h2 : (evaluatePotential b size m opp L).2 = b := evaluatePotential_board hm
    cases ms with
    | none =>
      dsimp only
      rw [h2]
      exact ih b (idx + 1) m _ hrest
    | some q =>
      dsimp only
      by_cases hq : q < cent m + ((evaluatePotential b size m p L).1 : ℚ) * 10 +
          ((evaluatePotential b size m opp L).1 : ℚ) * 8 + jitter idx
      · rw [if_pos hq, h2]
        exact ih b (idx + 1) m _ hrest
      · rw [if_neg hq, h2]
        exact ih b (idx + 1) best _ hrest

theorem calculateMove_eq_winCase (b : Board) (size : Nat) (p : Player) (L : Nat)
    (cent : Coordinate → ℚ) (jitter : Nat → ℚ) (m : Coordinate)
    (hfind : (validMoves b size).find?
      (fun m' => decide (L ≤ (evaluateLineStrength b size m' p L).1)) = some m) :
    calculateMove b size p L cent jitter = ((m.x, m.y), b) := by
  have hcells := validMoves_cells_empty b size
  cases hmoves : validMoves b size with
  | nil => rw [hmoves] at hfind; cases hfind
  | cons m0 rest =>
    rw [hmoves] at hfind hcells
    unfold calculateMove
    rw [hmoves]
    dsimp only
    rw [findFirstStrong_spec size p L (m0 :: rest) b hcells]
    dsimp only
    rw [hfind]

theorem calculateMove_eq_blockCase (b : Board) (size : Nat) (p : Player) (L : Nat)
    (cent : Coordinate → ℚ) (jitter : Nat → ℚ) (m : Coordinate)
    (hfindW : (validMoves b size).find?
      (fun m' => decide (L ≤ (evaluateLineStrength b size m' p L).1)) = none)
    (hfindB : (validMoves b size).find?
      (fun m' => decide (L ≤ (evaluateLineStrength b size m' p.other L).1)) = some m) :
    calculateMove b size p L cent jitter = ((m.x, m.y), b) := by
  have hcells := validMoves_cells_empty b size
  cases hmoves : validMoves b size with
  | nil => rw [hmoves] at hfindB; cases hfindB
  | cons m0 rest =>
    rw [hmoves] at hfindW hfindB hcells
    unfold calculateMove
    rw [hmoves]
    dsimp only
    rw [findFirstStrong_spec size p L (m0 :: rest) b hcells]
    dsimp only
    rw [hfindW]
    dsimp only
    rw [findFirstStrong_spec size p.other L (m0 :: rest) b hcells]
    dsimp only
    rw [hfindB]

theorem calculateMove_snd (b : Board) (size : Nat) (p : Player) (L : Nat)
    (cent : Coordinate → ℚ) (jitter : Nat → ℚ) :
    (calculateMove b size p L cent jitter).2 = b := by
  have hcells := validMoves_cells_empty b size
  cases hmoves : validMoves b size with
  | nil => unfold calculateMove; rw [hmoves]
  | cons m0 rest =>
    rw [hmoves] at hcells
    unfold calculateMove
    rw [hmoves]
    dsimp only
    rw [findFirstStrong_spec size p L (m0 :: rest) b hcells]
    dsimp only
    cases hW : (m0 :: rest).find?
        (fun m' => decide (L ≤ (evaluateLineStrength b size m' p L).1)) with
    | some m => rfl
    | none =>
      dsimp only
      rw [findFirstStrong_spec size p.other L (m0 :: rest) b hcells]
      dsimp only
      cases hB : (m0 :: rest).find?
          (fun m' => decide (L ≤ (evaluateLineStrength b size m' p.other L).1)) with
      | some m => rfl
      | none =>
        dsimp only
        exact scoreMoves_board size L p p.other cent jitter (m0 :: rest) b 0 m0 none hcells

/-- Claim C9: for every board whose candidate cell is empty, the AI's simulation
helpers (`evaluateLineStrength` and `evaluatePotential`) and `calculateMove` as a
whole leave the board equal, cell for cell, to its value before the call: the
temporary stone placed during simulation is always reverted before returning
(`calculateMove` unconditionally, since every enumerated valid move lands on an
empty cell). -/
theorem simulation_restores_board (b : Board) (size : Nat) (c : Coordinate)
    (p : Player) (L : Nat) (cent : Coordinate → ℚ) (jitter : Nat → ℚ)
    (h : b c.z c.y c.x = none) :
    (evaluateLineStrength b size c p L).2 = b ∧
    (evaluatePotential b size c p L).2 = b ∧
    (calculateMove b size p L cent jitter).2 = b :=
  ⟨evaluateLineStrength_board h, evaluatePotential_board h,
   calculateMove_snd b size p L cent jitter⟩

theorem simulation_restores_board_witness :
    (evaluateLineStrength (createEmptyBoard 2) 2 ⟨0, 0, 0⟩ Player.black 2).2 =
      createEmptyBoard 2 ∧
    (evaluatePotential (createEmptyBoard 2) 2 ⟨0, 0, 0⟩ Player.black 2).2 =
      createEmptyBoard 2 ∧
    (calculateMove (createEmptyBoard 2) 2 Player.black 2 (fun _ => 0)
      (fun _ => 0)).2 = createEmptyBoard 2 :=
  simulation_restores_board (createEmptyBoard 2) 2 ⟨0, 0, 0⟩ Player.black 2
    (fun _ => 0) (fun _ => 0) rfl

/-- Claim C2: whenever some legal column gives the AI an immediate win (a run of
length ≥ `winLength` through the gravity landing cell after placing the AI's
stone), `calculateMove` returns such a column; and whenever no legal column gives
the AI an immediate win but some legal column would give the opponent one,
`calculateMove` returns such a blocking column — for every centrality and jitter
oracle. -/
theorem calculateMove_wins_or_blocks (b : Board) (size : Nat) (p : Player)
    (L : Nat) (cent : Coordinate → ℚ) (jitter : Nat → ℚ)
    (h : (∃ m ∈ validMoves b size, createsRun b size m p L) ∨
         ((∀ m ∈ validMoves b size, ¬ createsRun b size m p L) ∧
          ∃ m ∈ validMoves b size, createsRun b size m p.other L)) :
    ∃ m ∈ validMoves b size,
      (calculateMove b size p L cent jitter).1 = (m.x, m.y) ∧
      ((∃ w ∈ validMoves b size, createsRun b size w p L) →
        createsRun b size m p L) ∧
      ((∀ w ∈ validMoves b size, ¬ createsRun b size w p L) →
        createsRun b size m p.other L) := by
  cases hW : (validMoves b size).find?
      (fun m' => decide (L ≤ (evaluateLineStrength b size m' p L).1)) with
  | some m =>
    have hm : m ∈ validMoves b size := List.mem_of_find?_eq_some hW
    have hpt := @List.find?_some Coordinate
      (fun m' => decide (L ≤ (evaluateLineStrength b size m' p L).1)) m
      (validMoves b size) hW
    have hpred : createsRun b size m p L :=
      evaluateLineStrength_ge_iff.mp (of_decide_eq_true hpt)
    refine ⟨m, hm, ?_, fun _ => hpred, fun hno => absurd hpred (hno m hm)⟩
    rw [calculateMove_eq_winCase b size p L cent jitter m hW]
  | none =>
    have hnone : ∀ w ∈ validMoves b size, ¬ createsRun b size w p L := by
      intro w hw hrun
      have hfalse := List.find?_eq_none.mp hW w hw
      exact hfalse (decide_eq_true (evaluateLineStrength_ge_iff.mpr hrun))
    rcases h with ⟨w, hw, hrun⟩ | ⟨-, m', hm', hrun'⟩
    · exact absurd hrun (hnone w hw)
    · cases hB : (validMoves b size).find?
          (fun m'' => decide (L ≤ (evaluateLineStrength b size m'' p.other L).1)) with
      | none =>
        exfalso
        exact List.find?_eq_none.mp hB m' hm'
          (decide_eq_true (evaluateLineStrength_ge_iff.mpr hrun'))
      | some m =>
        have hm : m ∈ validMoves b size := List.mem_of_find?_eq_some hB
        have hpt := @List.find?_some Coordinate
          (fun m'' => decide (L ≤ (evaluateLineStrength b size m'' p.other L).1)) m
          (validMoves b size) hB
        have hpred : createsRun b size m p.other L :=
          evaluateLineStrength_ge_iff.mp (of_decide_eq_true hpt)
        refine ⟨m, hm, ?_, ?_, fun _ => hpred⟩
        · rw [calculateMove_eq_blockCase b size p L cent jitter m hW hB]
        · rintro ⟨w, hw, hrun⟩
          exact absurd hrun (hnone w hw)

theorem calculateMove_wins_or_blocks_witness :
    ∃ m ∈ validMoves (createEmptyBoard 1) 1,
      (calculateMove (createEmptyBoard 1) 1 Player.black 1 (fun _ => 0)
        (fun _ => 0)).1 = (m.x, m.y) ∧
      ((∃ w ∈ validMoves (createEmptyBoard 1) 1,
          createsRun (createEmptyBoard 1) 1 w Player.black 1) →
        createsRun (createEmptyBoard 1) 1 m Player.black 1) ∧
      ((∀ w ∈ validMoves (createEmptyBoard 1) 1,
          ¬ createsRun (createEmptyBoard 1) 1 w Player.black 1) →
        createsRun (createEmptyBoard 1) 1 m Player.black.other 1) :=
  calculateMove_wins_or_blocks (createEmptyBoard 1) 1 Player.black 1
    (fun _ => 0) (fun _ => 0) (Or.inl (by decide))

/-- Source type `GameMode = 'PvP' | 'PvE' | 'Online'`. -/
inductive GameMode where
  | PvP
  | PvE
  | Online
deriving DecidableEq

/-- Source `GameState.networkStatus` values. -/
inductive NetStatus where
  | disconnected
  | connecting
  | waiting_opponent
  | connected
deriving DecidableEq

/-- Source interface `GameConfig` (`myPlayerColor` is optional, used in Online
mode only). -/
structure GameConfig where
  gridSize : Nat
  winLength : Nat
  gameMode : GameMode
  myPlayerColor : Option Player

/-- Source interface `GameState`: the engine-relevant fields (`networkRoomId` is
transport bookkeeping with no game meaning and is omitted). -/
structure GameState where
  board : Board
  currentPlayer : Player
  winner : Option Player
  winningLine : Option (List Coordinate)
  history : List Coordinate
  isDraw : Bool
  networkStatus : NetStatus

/-- The `gameStatus` three-state machine of `useGame`. -/
inductive Status where
  | setup
  | playing
  | finished
deriving DecidableEq

/-- One engine instance: `gameState`, `gameStatus` and the `isComputerThinking`
ref of `useGame`. -/
structure Session where
  state : GameState
  status : Status
  thinking : Bool

/-- Outbound network events (`networkStrategy.sendData` payloads). -/
inductive NetEvent where
  | moveEv (x y z : Int)
  | undoEv
  | resetEv
deriving DecidableEq

/-- Source `applyMove` of `useGame`: resolve the input through the move strategy;
on failure return the state unchanged and emit nothing; on success write the stone,
run win detection, compute the draw flag (`!winner && isBoardFull`), toggle the
player unconditionally, append the resolved coordinate to history, set status
`finished` when a winner or draw was produced, and emit a MOVE event carrying the
original input when this is a local move of a connected Online session. -/
def applyMove (resolve : Board → Coordinate → Option Coordinate) (cfg : GameConfig)
    (s : Session) (input : Coordinate) (isRemote : Bool) :
    Session × List NetEvent :=
  match resolve s.state.board input with
  | none => (s, [])
  | some t =>
    let newBoard := setCell s.state.board t (some s.state.currentPlayer)
    let w := checkWin newBoard cfg.gridSize cfg.winLength t
    let draw : Bool := w.1.isNone && isBoardFull newBoard cfg.gridSize
    let st : GameState :=
      { board := newBoard
        currentPlayer := s.state.currentPlayer.other
        winner := w.1
        winningLine := w.2
        history := s.state.history ++ [t]
        isDraw := draw
        networkStatus := s.state.networkStatus }
    let newStatus := if w.1.isSome || draw then Status.finished else s.status
    let evs :=
      if isRemote = false ∧ cfg.gameMode = GameMode.Online ∧
          s.state.networkStatus = NetStatus.connected then
        [NetEvent.moveEv input.x input.y input.z]
      else []
    (⟨st, newStatus, s.thinking⟩, evs)

/-- Source `performUndo` of `useGame`: no-op when history is empty or an AI
computation is pending; a locally initiated Online undo emits an UNDO event; the
number of plies removed is 1 in PvP/Online, in PvE 2 on the human's (black's) turn
with ≥ 2 plies and 1 on the AI's (white's) turn, otherwise the previous state is
returned unchanged; removed stones are cleared in reverse history order,
winner/winningLine/isDraw are cleared unconditionally, and the player is toggled
exactly in PvP/Online (status and the AI flag are untouched). -/
def performUndo (cfg : GameConfig) (s : Session) (isRemote : Bool) :
    Session × List NetEvent :=
  if s.state.history = [] ∨ s.thinking = true then (s, [])
  else
    let evs := if cfg.gameMode = GameMode.Online ∧ isRemote = false
      then [NetEvent.undoEv] else []
    let steps : Option Nat :=
      match cfg.gameMode with
      | GameMode.PvE =>
        if s.state.currentPlayer = Player.black ∧ 2 ≤ s.state.history.length then
          some 2
        else if s.state.currentPlayer = Player.white then some 1
        else none
      | _ => some 1
    match steps with
    | none => (s, evs)
    | some n =>
      let removed := s.state.history.drop (s.state.history.length - n)
      let newBoard := removed.foldl (fun b c => setCell b c none) s.state.board
      let nextPlayer :=
        if cfg.gameMode = GameMode.PvP ∨ cfg.gameMode = GameMode.Online then
          s.state.currentPlayer.other
        else s.state.currentPlayer
      (⟨{ board := newBoard
          currentPlayer := nextPlayer
          winner := none
          winningLine := none
          history := s.state.history.take (s.state.history.length - n)
          isDraw := false
          networkStatus := s.state.networkStatus }, s.status, s.thinking⟩, evs)

/-- Source `startNewGame`: fresh empty board, black to move, cleared
flags/history, status `playing`, AI flag cleared; network status preserved only
when requested. -/
def startNewGame (cfg : GameConfig) (prev : Session) (preserveNetwork : Bool) :
    Session :=
  { state :=
      { board := createEmptyBoard cfg.gridSize
        currentPlayer := Player.black
        winner := none
        winningLine := none
        history := []
        isDraw := false
        networkStatus := if preserveNetwork then prev.state.networkStatus
          else NetStatus.disconnected }
    status := Status.playing
    thinking := false }

/-- The session right after a fresh (non-network-preserving) `startNewGame`. -/
def initSession (cfg : GameConfig) : Session :=
  { state :=
      { board := createEmptyBoard cfg.gridSize
        currentPlayer := Player.black
        winner := none
        winningLine := none
        history := []
        isDraw := false
        networkStatus := NetStatus.disconnected }
    status := Status.playing
    thinking := false }

/-- Source `makeMove`: no-op unless status is `playing`; in Online mode a local
move is also dropped when it is not this instance's color's turn; otherwise the
move is applied as a local (`isRemote = false`) move. -/
def makeMove (resolve : Board → Coordinate → Option Coordinate) (cfg : GameConfig)
    (s : Session) (input : Coordinate) : Session × List NetEvent :=
  if s.status ≠ Status.playing then (s, [])
  else if cfg.gameMode = GameMode.Online ∧
      cfg.myPlayerColor ≠ some s.state.currentPlayer then (s, [])
  else applyMove resolve cfg s input false

theorem applyMove_none (resolve : Board → Coordinate → Option Coordinate)
    (cfg : GameConfig) (s : Session) (input : Coordinate) (isRemote : Bool)
    (hres : resolve s.state.board input = none) :
    applyMove resolve cfg s input isRemote = (s, []) := by
  simp only [applyMove, hres]

theorem applyMove_some (resolve : Board → Coordinate → Option Coordinate)
    (cfg : GameConfig) (s : Session) (input t : Coordinate) (isRemote : Bool)
    (hres : resolve s.state.board input = some t) :
    applyMove resolve cfg s input isRemote =
      (⟨{ board := setCell s.state.board t (some s.state.currentPlayer)
          currentPlayer := s.state.currentPlayer.other
          winner := (checkWin (setCell s.state.board t (some s.state.currentPlayer))
            cfg.gridSize cfg.winLength t).1
          winningLine := (checkWin (setCell s.state.board t
            (some s.state.currentPlayer)) cfg.gridSize cfg.winLength t).2
          history := s.state.history ++ [t]
          isDraw := ((checkWin (setCell s.state.board t (some s.state.currentPlayer))
            cfg.gridSize cfg.winLength t).1.isNone &&
            isBoardFull (setCell s.state.board t (some s.state.currentPlayer))
              cfg.gridSize)
          networkStatus := s.state.networkStatus },
        if (checkWin (setCell s.state.board t (some s.state.currentPlayer))
              cfg.gridSize cfg.winLength t).1.isSome ||
            ((checkWin (setCell s.state.board t (some s.state.currentPlayer))
              cfg.gridSize cfg.winLength t).1.isNone &&
             isBoardFull (setCell s.state.board t (some s.state.currentPlayer))
               cfg.gridSize) then
          Status.finished
        else s.status,
        s.thinking⟩,
       if isRemote = false ∧ cfg.gameMode = GameMode.Online ∧
           s.state.networkStatus = NetStatus.connected then
         [NetEvent.moveEv input.x input.y input.z]
       else []) := by
  simp only [applyMove, hres]

/-- A 1-cube PvP configuration with win length 1, used as a concrete scenario. -/
def cfg1 : GameConfig := ⟨1, 1, GameMode.PvP, none⟩

/-- Claim C5 counterexample: on a 1-cube with win length 1 in status `playing`,
black's successful move at (0,0,0) produces a winner, yet the current turn is
still switched to white — contradicting the claim that the turn is switched only
in the case where neither winner nor draw is set. -/
theorem applyMove_turn_switch_counterexample :
    (applyMove (fun b c => gravityDeterminePosition b 1 c) cfg1
        (initSession cfg1) ⟨0, 0, 0⟩ false).1.state.winner = some Player.black ∧
    (initSession cfg1).state.currentPlayer = Player.black ∧
    (applyMove (fun b c => gravityDeterminePosition b 1 c) cfg1
        (initSession cfg1) ⟨0, 0, 0⟩ false).1.state.currentPlayer = Player.white := by
  decide

/-- Claim C5 (amended): for every successful move submission in status `playing`,
the resolved stone is written to the resolved cell and no other cell changes, the
resolved coordinate is appended to history, win detection runs on the new board and
its winner/winningLine results are stored, the draw flag is set iff there is no
winner and the new board is full, and the status becomes `finished` exactly when a
winner or draw was produced — but the current turn is switched to the other player
in every successful case, including when a winner or draw is set (not only in the
remaining case, as the claim states). -/
theorem applyMove_success_spec (resolve : Board → Coordinate → Option Coordinate)
    (cfg : GameConfig) (s : Session) (input t : Coordinate) (isRemote : Bool)
    (hres : resolve s.state.board input = some t)
    (hst : s.status = Status.playing) :
    (applyMove resolve cfg s input isRemote).1.state.board =
      setCell s.state.board t (some s.state.currentPlayer) ∧
    (applyMove resolve cfg s input isRemote).1.state.history =
      s.state.history ++ [t] ∧
    (applyMove resolve cfg s input isRemote).1.state.winner =
      (checkWin (setCell s.state.board t (some s.state.currentPlayer))
        cfg.gridSize cfg.winLength t).1 ∧
    (applyMove resolve cfg s input isRemote).1.state.winningLine =
      (checkWin (setCell s.state.board t (some s.state.currentPlayer))
        cfg.gridSize cfg.winLength t).2 ∧
    (applyMove resolve cfg s input isRemote).1.state.isDraw =
      ((checkWin (setCell s.state.board t (some s.state.currentPlayer))
         cfg.gridSize cfg.winLength t).1.isNone &&
       isBoardFull (setCell s.state.board t (some s.state.currentPlayer))
         cfg.gridSize) ∧
    (applyMove resolve cfg s input isRemote).1.state.currentPlayer =
      s.state.currentPlayer.other ∧
    (applyMove resolve cfg s input isRemote).1.status =
      (if (checkWin (setCell s.state.board t (some s.state.currentPlayer))
             cfg.gridSize cfg.winLength t).1.isSome ||
          ((checkWin (setCell s.state.board t (some s.state.currentPlayer))
             cfg.gridSize cfg.winLength t).1.isNone &&
           isBoardFull (setCell s.state.board t (some s.state.currentPlayer))
             cfg.gridSize) then
        Status.finished
      else Status.playing) := by
  rw [applyMove_some resolve cfg s input t isRemote hres, hst]
  exact ⟨rfl, rfl, rfl, rfl, rfl, rfl, rfl⟩

theorem applyMove_success_spec_witness :
    (applyMove (fun b c => gravityDeterminePosition b 1 c) cfg1
        (initSession cfg1) ⟨0, 0, 0⟩ false).1.state.board =
      setCell (initSession cfg1).state.board ⟨0, 0, 0⟩
        (some (initSession cfg1).state.currentPlayer) ∧
    (applyMove (fun b c => gravityDeterminePosition b 1 c) cfg1
        (initSession cfg1) ⟨0, 0, 0⟩ false).1.state.history =
      (initSession cfg1).state.history ++ [⟨0, 0, 0⟩] ∧
    (applyMove (fun b c => gravityDeterminePosition b 1 c) cfg1
        (initSession cfg1) ⟨0, 0, 0⟩ false).1.state.winner =
      (checkWin (setCell (initSession cfg1).state.board ⟨0, 0, 0⟩
        (some (initSession cfg1).state.currentPlayer)) 1 1 ⟨0, 0, 0⟩).1 ∧
    (applyMove (fun b c => gravityDeterminePosition b 1 c) cfg1
        (initSession cfg1) ⟨0, 0, 0⟩ false).1.state.winningLine =
      (checkWin (setCell (initSession cfg1).state.board ⟨0, 0, 0⟩
        (some (initSession cfg1).state.currentPlayer)) 1 1 ⟨0, 0, 0⟩).2 ∧
    (applyMove (fun b c => gravityDeterminePosition b 1 c) cfg1
        (initSession cfg1) ⟨0, 0, 0⟩ false).1.state.isDraw =
      ((checkWin (setCell (initSession cfg1).state.board ⟨0, 0, 0⟩
         (some (initSession cfg1).state.currentPlayer)) 1 1 ⟨0, 0, 0⟩).1.isNone &&
       isBoardFull (setCell (initSession cfg1).state.board ⟨0, 0, 0⟩
         (some (initSession cfg1).state.currentPlayer)) 1) ∧
    (applyMove (fun b c => gravityDeterminePosition b 1 c) cfg1
        (initSession cfg1) ⟨0, 0, 0⟩ false).1.state.currentPlayer =
      (initSession cfg1).state.currentPlayer.other ∧
    (applyMove (fun b c => gravityDeterminePosition b 1 c) cfg1
        (initSession cfg1) ⟨0, 0, 0⟩ false).1.status =
      (if (checkWin (setCell (initSession cfg1).state.board ⟨0, 0, 0⟩
             (some (initSession cfg1).state.currentPlayer)) 1 1 ⟨0, 0, 0⟩).1.isSome ||
          ((checkWin (setCell (initSession cfg1).state.board ⟨0, 0, 0⟩
             (some (initSession cfg1).state.currentPlayer)) 1 1 ⟨0, 0, 0⟩).1.isNone &&
           isBoardFull (setCell (initSession cfg1).state.board ⟨0, 0, 0⟩
             (some (initSession cfg1).state.currentPlayer)) 1) then
        Status.finished
      else Status.playing) :=
  applyMove_success_spec (fun b c => gravityDeterminePosition b 1 c) cfg1
    (initSession cfg1) ⟨0, 0, 0⟩ ⟨0, 0, 0⟩ false (by decide) rfl

/-- Claim C8: for every move submission whose resolution fails — the column is
full under gravity, or the exact cell is occupied under free placement — the
entire session (board, turn, history, winner, winningLine, draw flag, status) is
returned unchanged and no outbound network event is emitted.  Each failure mode
has its own hypothesis: the gravity half needs only a full column, the
free-placement half needs only the occupied input cell. -/
theorem applyMove_failure_noop (cfg : GameConfig) (s : Session)
    (input : Coordinate) (isRemote : Bool) :
    ((∀ k : Nat, k < cfg.gridSize → s.state.board k input.y input.x ≠ none) →
      applyMove (fun b c => gravityDeterminePosition b cfg.gridSize c) cfg s
        input isRemote = (s, [])) ∧
    (s.state.board input.z input.y input.x ≠ none →
      applyMove freeDeterminePosition cfg s input isRemote = (s, [])) := by
  constructor
  · intro hfull
    have hres : gravityDeterminePosition s.state.board cfg.gridSize input = none := by
      simp [gravityDeterminePosition, gravityZ_eq_none.mpr hfull]
    exact applyMove_none _ cfg s input isRemote hres
  · intro hocc
    have hres : freeDeterminePosition s.state.board input = none := by
      simp [freeDeterminePosition, hocc]
    exact applyMove_none _ cfg s input isRemote hres

/-- A fully occupied board (every cell black), for the full-column scenario. -/
def bFull : Board := fun _ _ _ => some Player.black

/-- A playing 1-cube PvP session whose board is full. -/
def sFull : Session :=
  ⟨⟨bFull, Player.black, none, none, [⟨0, 0, 0⟩], false, NetStatus.disconnected⟩,
   Status.playing, false⟩

/-- A 2-cube PvP configuration. -/
def cfg2 : GameConfig := ⟨2, 2, GameMode.PvP, none⟩

/-- A playing 2-cube PvP session with a single black stone at (0,0,0): the input
cell (0,0,0) is occupied but its column is not full. -/
def sOcc : Session :=
  ⟨⟨setCell (createEmptyBoard 2) ⟨0, 0, 0⟩ (some Player.black), Player.white,
    none, none, [⟨0, 0, 0⟩], false, NetStatus.disconnected⟩,
   Status.playing, false⟩

theorem applyMove_failure_noop_witness :
    applyMove (fun b c => gravityDeterminePosition b cfg1.gridSize c) cfg1 sFull
        ⟨0, 0, 0⟩ false = (sFull, []) ∧
    applyMove freeDeterminePosition cfg2 sOcc ⟨0, 0, 0⟩ false = (sOcc, []) :=
  ⟨(applyMove_failure_noop cfg1 sFull ⟨0, 0, 0⟩ false).1 (by decide),
   (applyMove_failure_noop cfg2 sOcc ⟨0, 0, 0⟩ false).2 (by decide)⟩

/-- A PvE configuration on a 4-cube. -/
def cfgPvE : GameConfig := ⟨4, 4, GameMode.PvE, none⟩

/-- A PvE session on black's (the human's) turn whose history holds exactly the
AI's single move at (0,0,0). -/
def sPvE1 : Session :=
  ⟨⟨setCell (createEmptyBoard 4) ⟨0, 0, 0⟩ (some Player.white), Player.black,
    none, none, [⟨0, 0, 0⟩], false, NetStatus.disconnected⟩,
   Status.playing, false⟩

/-- Claim C7 counterexample: in PvE mode on the human's (black's) turn with exactly
1 ply of history, `performUndo` removes nothing — the history still holds 1 ply and
the turn is still black's — whereas the claim says exactly 1 ply is removed and the
turn defaults to the AI's color. -/
theorem performUndo_pve_single_counterexample :
    (performUndo cfgPvE sPvE1 false).1.state.history.length = 1 ∧
    (performUndo cfgPvE sPvE1 false).1.state.currentPlayer = Player.black ∧
    (performUndo cfgPvE sPvE1 false).2 = [] := by
  decide

/-- Claim C7 (amended): in PvE mode, when undo is invoked while it is the human's
(black's) turn and the history contains exactly 1 ply, `performUndo` removes no
plies at all: the session is returned unchanged and no event is emitted (the
source's unmatched branch returns the previous state; it does not fall back to
removing one ply, so the AI's move stays and the turn stays black's). -/
theorem performUndo_pve_single_noop (cfg : GameConfig) (s : Session)
    (isRemote : Bool) (hmode : cfg.gameMode = GameMode.PvE)
    (hplayer : s.state.currentPlayer = Player.black)
    (hlen : s.state.history.length = 1) :
    performUndo cfg s isRemote = (s, []) := by
  by_cases hth : s.thinking = true
  · simp [performUndo, hth]
  · have hne : ¬(s.state.history = [] ∨ s.thinking = true) := by
      rintro (hh | hh)
      · rw [hh] at hlen; cases hlen
      · exact hth hh
    simp only [performUndo]
    rw [if_neg hne, hmode]
    have hc1 : ¬(s.state.currentPlayer = Player.black ∧
        2 ≤ s.state.history.length) := by
      rintro ⟨-, hh⟩; omega
    have hc2 : ¬(s.state.currentPlayer = Player.white) := by
      rw [hplayer]; intro hh; cases hh
    have hevs : ¬(GameMode.PvE = GameMode.Online ∧ isRemote = false) := by
      rintro ⟨hh, -⟩; cases hh
    dsimp only
    rw [if_neg hc1, if_neg hc2, if_neg hevs]

theorem performUndo_pve_single_noop_witness :
    performUndo cfgPvE sPvE1 true = (sPvE1, []) :=
  performUndo_pve_single_noop cfgPvE sPvE1 true rfl rfl rfl

/-- The number of stones on the `size`-cube portion of the board. -/
def countStones (b : Board) (size : Nat) : Nat :=
  ((Finset.range size ×ˢ Finset.range size ×ˢ Finset.range size).filter
    (fun t : Nat × Nat × Nat => b t.1 t.2.1 t.2.2 ≠ none)).card

theorem filter_card_flip {α : Type} [DecidableEq α] (S : Finset α)
    (pold pnew : α → Prop) [DecidablePred pold] [DecidablePred pnew] (t0 : α)
    (ht0 : t0 ∈ S) (hagree : ∀ t ∈ S, t ≠ t0 → (pnew t ↔ pold t))
    (hold : ¬ pold t0) (hnew : pnew t0) :
    (S.filter pnew).card = (S.filter pold).card + 1 := by
  have hset : S.filter pnew = insert t0 (S.filter pold) := by
    ext t
    simp only [Finset.mem_filter, Finset.mem_insert]
    constructor
    · rintro ⟨htS, hpt⟩
      by_cases ht : t = t0
      · exact Or.inl ht
      · exact Or.inr ⟨htS, (hagree t htS ht).mp hpt⟩
    · rintro (rfl | ⟨htS, hpt⟩)
      · exact ⟨ht0, hnew⟩
      · by_cases ht : t = t0
        · subst ht; exact absurd hpt hold
        · exact ⟨htS, (hagree t htS ht).mpr hpt⟩
  rw [hset, Finset.card_insert_of_not_mem]
  simp only [Finset.mem_filter]
  rintro ⟨-, hpt⟩
  exact hold hpt

theorem setCell_eq_at (b : Board) (c : Coordinate) (v : CellValue) :
    setCell b c v c.z c.y c.x = v := by
  simp [setCell]

theorem setCell_ne_at (b : Board) (c : Coordinate) (v : CellValue) {z y x : Int}
    (hne : ¬(z = c.z ∧ y = c.y ∧ x = c.x)) : setCell b c v z y x = b z y x := by
  simp only [setCell]
  rw [if_neg hne]

theorem coord_ne_components {c c' : Coordinate} (hne : c' ≠ c) :
    ¬(c'.z = c.z ∧ c'.y = c.y ∧ c'.x = c.x) := by
  rintro ⟨h1, h2, h3⟩
  apply hne
  cases c
  cases c'
  simp_all

theorem countStones_setCell_some (b : Board) (c : Coordinate) (p : Player)
    (size : Nat) (hin : coordInBounds size c) (hempty : b c.z c.y c.x = none) :
    countStones (setCell b c (some p)) size = countStones b size + 1 := by
  obtain ⟨hx0, hx1, hy0, hy1, hz0, hz1⟩ := hin
  have hzc : ((c.z.toNat : Nat) : Int) = c.z := by omega
  have hyc : ((c.y.toNat : Nat) : Int) = c.y := by omega
  have hxc : ((c.x.toNat : Nat) : Int) = c.x := by omega
  refine filter_card_flip _ _ _ (c.z.toNat, c.y.toNat, c.x.toNat) ?_ ?_ ?_ ?_
  · simp only [Finset.mem_product, Finset.mem_range]
    refine ⟨by omega, by omega, by omega⟩
  · rintro ⟨tz, ty, tx⟩ htS htne
    have hcond : ¬((tz : Int) = c.z ∧ (ty : Int) = c.y ∧ (tx : Int) = c.x) := by
      rintro ⟨h1, h2, h3⟩
      apply htne
      have : tz = c.z.toNat := by omega
      have : ty = c.y.toNat := by omega
      have : tx = c.x.toNat := by omega
      simp_all
    rw [setCell_ne_at b c (some p) hcond]
  · dsimp only
    rw [hzc, hyc, hxc, hempty]
    exact fun h => h rfl
  · dsimp only
    rw [hzc, hyc, hxc, setCell_eq_at]
    exact fun h => by cases h

theorem countStones_setCell_none (b : Board) (c : Coordinate) (size : Nat)
    (hin : coordInBounds size c) (hocc : b c.z c.y c.x ≠ none) :
    countStones b size = countStones (setCell b c none) size + 1 := by
  obtain ⟨hx0, hx1, hy0, hy1, hz0, hz1⟩ := hin
  have hzc : ((c.z.toNat : Nat) : Int) = c.z := by omega
  have hyc : ((c.y.toNat : Nat) : Int) = c.y := by omega
  have hxc : ((c.x.toNat : Nat) : Int) = c.x := by omega
  refine filter_card_flip _ _ _ (c.z.toNat, c.y.toNat, c.x.toNat) ?_ ?_ ?_ ?_
  · simp only [Finset.mem_product, Finset.mem_range]
    refine ⟨by omega, by omega, by omega⟩
  · rintro ⟨tz, ty, tx⟩ htS htne
    have hcond : ¬((tz : Int) = c.z ∧ (ty : Int) = c.y ∧ (tx : Int) = c.x) := by
      rintro ⟨h1, h2, h3⟩
      apply htne
      have : tz = c.z.toNat := by omega
      have : ty = c.y.toNat := by omega
      have : tx = c.x.toNat := by omega
      simp_all
    rw [setCell_ne_at b c none hcond]
  · dsimp only
    rw [hzc, hyc, hxc, setCell_eq_at]
    exact fun h => h rfl
  · dsimp only
    rw [hzc, hyc, hxc]
    exact hocc

theorem foldl_clear_preserve (l : List Coordinate) :
    ∀ (b : Board) (z y x : Int),
      (∀ c ∈ l, ¬(z = c.z ∧ y = c.y ∧ x = c.x)) →
      (l.foldl (fun b c => setCell b c none) b) z y x = b z y x := by
  induction l with
  | nil => intro b z y x _; rfl
  | cons c rest ih =>
    intro b z y x h
    simp only [List.foldl_cons]
    rw [ih (setCell b c none) z y x
      (fun c' hc' => h c' (List.mem_cons_of_mem c hc'))]
    exact setCell_ne_at b c none (h c (List.mem_cons_self c rest))

theorem foldl_clear_count (size : Nat) :
    ∀ (l : List Coordinate) (b : Board),
      l.Pairwise (· ≠ ·) →
      (∀ c ∈ l, coordInBounds size c ∧ b c.z c.y c.x ≠ none) →
      countStones b size =
        countStones (l.foldl (fun b c => setCell b c none) b) size + l.length := by
  intro l
  induction l with
  | nil => intro b _ _; rfl
  | cons c rest ih =>
    intro b hpair hcells
    obtain ⟨hin, hocc⟩ := hcells c (List.mem_cons_self c rest)
    have hhead : ∀ c' ∈ rest, c ≠ c' :=
      fun c' hc' => List.rel_of_pairwise_cons hpair hc'
    have hstep : countStones b size = countStones (setCell b c none) size + 1 :=
      countStones_setCell_none b c size hin hocc
    have hrest : ∀ c' ∈ rest, coordInBounds size c' ∧
        setCell b c none c'.z c'.y c'.x ≠ none := by
      intro c' hc'
      obtain ⟨hin', hocc'⟩ := hcells c' (List.mem_cons_of_mem c hc')
      refine ⟨hin', ?_⟩
      rw [setCell_ne_at b c none (coord_ne_components (hhead c' hc').symm)]
      exact hocc'
    simp only [List.foldl_cons, List.length_cons]
    rw [hstep, ih (setCell b c none) (List.Pairwise.of_cons hpair) hrest]
    omega

theorem Player.other_other (p : Player) : p.other.other = p := by
  cases p <;> rfl

theorem checkWin_none_line (b : Board) (size L : Nat) (c : Coordinate) :
    (checkWin b size L c).1 = none → (checkWin b size L c).2 = none := by
  unfold checkWin
  cases b c.z c.y c.x with
  | none => intro _; rfl
  | some pl =>
    dsimp only
    cases checkWinAux b size L pl c directions with
    | none => intro _; rfl
    | some l' => intro h; cases h

theorem performUndo_guard (cfg : GameConfig) (s : Session) (isRemote : Bool)
    (h : s.state.history = [] ∨ s.thinking = true) :
    performUndo cfg s isRemote = (s, []) := by
  simp only [performUndo]
  rw [if_pos h]

theorem performUndo_noStep (cfg : GameConfig) (s : Session) (isRemote : Bool)
    (hguard : ¬(s.state.history = [] ∨ s.thinking = true))
    (hsteps : (match cfg.gameMode with
      | GameMode.PvE =>
        if s.state.currentPlayer = Player.black ∧ 2 ≤ s.state.history.length then
          some 2
        else if s.state.currentPlayer = Player.white then some 1
        else none
      | _ => (some 1 : Option Nat)) = none) :
    performUndo cfg s isRemote =
      (s, if cfg.gameMode = GameMode.Online ∧ isRemote = false then
        [NetEvent.undoEv] else []) := by
  simp only [performUndo]
  rw [if_neg hguard]
  rw [hsteps]

theorem performUndo_some (cfg : GameConfig) (s : Session) (isRemote : Bool)
    (n : Nat) (hguard : ¬(s.state.history = [] ∨ s.thinking = true))
    (hsteps : (match cfg.gameMode with
      | GameMode.PvE =>
        if s.state.currentPlayer = Player.black ∧ 2 ≤ s.state.history.length then
          some 2
        else if s.state.currentPlayer = Player.white then some 1
        else none
      | _ => (some 1 : Option Nat)) = some n) :
    performUndo cfg s isRemote =
      (⟨{ board := (s.state.history.drop (s.state.history.length - n)).foldl
            (fun b c => setCell b c none) s.state.board
          currentPlayer := if cfg.gameMode = GameMode.PvP ∨
              cfg.gameMode = GameMode.Online then
            s.state.currentPlayer.other
          else s.state.currentPlayer
          winner := none
          winningLine := none
          history := s.state.history.take (s.state.history.length - n)
          isDraw := false
          networkStatus := s.state.networkStatus }, s.status, s.thinking⟩,
       if cfg.gameMode = GameMode.Online ∧ isRemote = false then
         [NetEvent.undoEv] else []) := by
  simp only [performUndo]
  rw [if_neg hguard]
  rw [hsteps]

/-- All history cells are in bounds and hold stones. -/
def historyOk (size : Nat) (st : GameState) : Prop :=
  ∀ c ∈ st.history, coordInBounds size c ∧ st.board c.z c.y c.x ≠ none

/-- The session invariant maintained by the normal flow: the AI flag is clear, a
playing session has no winner/line/draw, the stone count equals the history
length, and the history is a duplicate-free list of in-bounds occupied cells. -/
def SessionInv (cfg : GameConfig) (s : Session) : Prop :=
  s.thinking = false ∧
  (s.status = Status.playing →
    s.state.winner = none ∧ s.state.winningLine = none ∧
    s.state.isDraw = false) ∧
  countStones s.state.board cfg.gridSize = s.state.history.length ∧
  s.state.history.Pairwise (· ≠ ·) ∧
  historyOk cfg.gridSize s.state

theorem inv_init (cfg : GameConfig) : SessionInv cfg (initSession cfg) := by
  refine ⟨rfl, fun _ => ⟨rfl, rfl, rfl⟩, ?_, List.Pairwise.nil, ?_⟩
  · simp [countStones, initSession, createEmptyBoard]
  · intro c hc
    cases hc

theorem inv_move (cfg : GameConfig) (s : Session) (input : Coordinate)
    (isRemote : Bool) (hInv : SessionInv cfg s) (_hst : s.status = Status.playing)
    (hx0 : 0 ≤ input.x) (hx1 : input.x < cfg.gridSize)
    (hy0 : 0 ≤ input.y) (hy1 : input.y < cfg.gridSize) :
    SessionInv cfg (applyMove (fun b c => gravityDeterminePosition b cfg.gridSize c)
      cfg s input isRemote).1 := by
  obtain ⟨hth, hflags, hcount, hpair, hhist⟩ := hInv
  cases hres : gravityDeterminePosition s.state.board cfg.gridSize input with
  | none =>
    rw [applyMove_none _ cfg s input isRemote hres]
    exact ⟨hth, hflags, hcount, hpair, hhist⟩
  | some t =>
    have hz' : ∃ z : Nat, gravityZ s.state.board cfg.gridSize input.x input.y =
        some z ∧ t = ⟨input.x, input.y, (z : Int)⟩ := by
      unfold gravityDeterminePosition at hres
      cases hz : gravityZ s.state.board cfg.gridSize input.x input.y with
      | none => rw [hz] at hres; cases hres
      | some z =>
        rw [hz] at hres
        exact ⟨z, rfl, (Option.some_inj.mp hres).symm⟩
    obtain ⟨z, hz, rfl⟩ := hz'
    obtain ⟨hzlt, hempty, -⟩ := gravityZ_eq_some.mp hz
    have hin : coordInBounds cfg.gridSize ⟨input.x, input.y, (z : Int)⟩ :=
      ⟨hx0, hx1, hy0, hy1, Int.natCast_nonneg z,
       by show (z : Int) < (cfg.gridSize : Int); exact_mod_cast hzlt⟩
    rw [applyMove_some _ cfg s input ⟨input.x, input.y, (z : Int)⟩ isRemote hres]
    set t : Coordinate := ⟨input.x, input.y, (z : Int)⟩ with ht
    have htne : ∀ c ∈ s.state.history, c ≠ t := by
      intro c hc hct
      have hocc := (hhist c hc).2
      rw [hct] at hocc
      exact hocc hempty
    refine ⟨hth, ?_, ?_, ?_, ?_⟩
    · intro hplay
      dsimp only at hplay ⊢
      set bw : Board := setCell s.state.board t (some s.state.currentPlayer) with hbw
      by_cases hcond : ((checkWin bw cfg.gridSize cfg.winLength t).1.isSome ||
          ((checkWin bw cfg.gridSize cfg.winLength t).1.isNone &&
           isBoardFull bw cfg.gridSize)) = true
      · rw [if_pos hcond] at hplay
        cases hplay
      · have hcond' := hcond
        simp only [Bool.or_eq_true, Bool.and_eq_true, not_or, not_and] at hcond'
        obtain ⟨hw, hnf⟩ := hcond'
        have hwnone : (checkWin bw cfg.gridSize cfg.winLength t).1 = none := by
          cases hwc : (checkWin bw cfg.gridSize cfg.winLength t).1 with
          | none => rfl
          | some pl => rw [hwc] at hw; cases hw rfl
        refine ⟨hwnone, checkWin_none_line bw cfg.gridSize cfg.winLength t hwnone, ?_⟩
        rw [hwnone]
        simp only [Option.isNone_none, Bool.true_and]
        have := hnf (by rw [hwnone]; rfl)
        simp only [Bool.not_eq_true] at this
        exact this
    · dsimp only
      rw [countStones_setCell_some s.state.board t s.state.currentPlayer
        cfg.gridSize hin hempty, hcount, List.length_append, List.length_singleton]
    · dsimp only
      rw [List.pairwise_append]
      refine ⟨hpair, List.pairwise_singleton _ _, ?_⟩
      intro a ha b hb
      rw [List.mem_singleton] at hb
      rw [hb]
      exact htne a ha
    · intro c hc
      dsimp only at hc ⊢
      rcases List.mem_append.mp hc with hmem | hmem
      · obtain ⟨hin', hocc'⟩ := hhist c hmem
        refine ⟨hin', ?_⟩
        rw [setCell_ne_at s.state.board t (some s.state.currentPlayer)
          (coord_ne_components (htne c hmem))]
        exact hocc'
      · rw [List.mem_singleton] at hmem
        subst hmem
        refine ⟨hin, ?_⟩
        rw [setCell_eq_at]
        exact fun h => by cases h

theorem inv_undo_parts (cfg : GameConfig) (s : Session) (pl : Player) (n : Nat)
    (hInv : SessionInv cfg s) (hlen : n ≤ s.state.history.length) :
    SessionInv cfg
      ⟨{ board := (s.state.history.drop (s.state.history.length - n)).foldl
                    (fun b c => setCell b c none) s.state.board
         currentPlayer := pl
         winner := none
         winningLine := none
         history := s.state.history.take (s.state.history.length - n)
         isDraw := false
         networkStatus := s.state.networkStatus },
       s.status, s.thinking⟩ := by
  obtain ⟨hth, -, hcount, hpair, hhist⟩ := hInv
  have hsplit : s.state.history.take (s.state.history.length - n) ++
      s.state.history.drop (s.state.history.length - n) = s.state.history :=
    List.take_append_drop _ _
  have hpair' : (s.state.history.take (s.state.history.length - n) ++
      s.state.history.drop (s.state.history.length - n)).Pairwise (· ≠ ·) := by
    rw [hsplit]; exact hpair
  rw [List.pairwise_append] at hpair'
  obtain ⟨hpairK, hpairD, hcross⟩ := hpair'
  have hdropcells : ∀ c ∈ s.state.history.drop (s.state.history.length - n),
      coordInBounds cfg.gridSize c ∧ s.state.board c.z c.y c.x ≠ none := by
    intro c hc
    exact hhist c (by rw [← hsplit]; exact List.mem_append_right _ hc)
  have hdroplen : (s.state.history.drop (s.state.history.length - n)).length = n := by
    rw [List.length_drop]
    omega
  have hclear := foldl_clear_count cfg.gridSize
    (s.state.history.drop (s.state.history.length - n)) s.state.board hpairD
    hdropcells
  refine ⟨hth, fun _ => ⟨rfl, rfl, rfl⟩, ?_, hpairK, ?_⟩
  · dsimp only
    rw [List.length_take]
    omega
  · intro c hc
    dsimp only at hc ⊢
    obtain ⟨hin', hocc'⟩ := hhist c (by rw [← hsplit]; exact List.mem_append_left _ hc)
    refine ⟨hin', ?_⟩
    rw [foldl_clear_preserve _ s.state.board c.z c.y c.x ?_]
    · exact hocc'
    · intro c' hc'
      exact coord_ne_components (hcross c hc c' hc')

theorem inv_undo (cfg : GameConfig) (s : Session) (isRemote : Bool)
    (hInv : SessionInv cfg s) : SessionInv cfg (performUndo cfg s isRemote).1 := by
  by_cases hguard : s.state.history = [] ∨ s.thinking = true
  · rw [performUndo_guard cfg s isRemote hguard]
    exact hInv
  · have hne : s.state.history ≠ [] := fun hh => hguard (Or.inl hh)
    have hlen1 : 1 ≤ s.state.history.length := by
      cases hh : s.state.history with
      | nil => exact absurd hh hne
      | cons a l => simp [hh]
    cases hsteps : (match cfg.gameMode with
      | GameMode.PvE =>
        if s.state.currentPlayer = Player.black ∧ 2 ≤ s.state.history.length then
          some 2
        else if s.state.currentPlayer = Player.white then some 1
        else none
      | _ => (some 1 : Option Nat)) with
    | none =>
      rw [performUndo_noStep cfg s isRemote hguard hsteps]
      exact hInv
    | some n =>
      rw [performUndo_some cfg s isRemote n hguard hsteps]
      have hlen : n ≤ s.state.history.length := by
        cases hmode : cfg.gameMode with
        | PvE =>
          rw [hmode] at hsteps
          have hs2 : (if s.state.currentPlayer = Player.black ∧
                2 ≤ s.state.history.length then some 2
              else if s.state.currentPlayer = Player.white then some 1
              else none) = some n := hsteps
          by_cases h1 : s.state.currentPlayer = Player.black ∧
              2 ≤ s.state.history.length
          · rw [if_pos h1] at hs2
            cases hs2
            omega
          · rw [if_neg h1] at hs2
            by_cases h2 : s.state.currentPlayer = Player.white
            · rw [if_pos h2] at hs2
              cases hs2
              omega
            · rw [if_neg h2] at hs2
              cases hs2
        | PvP =>
          rw [hmode] at hsteps
          have hs1 : (some 1 : Option Nat) = some n := hsteps
          cases hs1
          omega
        | Online =>
          rw [hmode] at hsteps
          have hs1 : (some 1 : Option Nat) = some n := hsteps
          cases hs1
          omega
      exact inv_undo_parts cfg s _ n
        ⟨hInv.1, hInv.2.1, hInv.2.2.1, hInv.2.2.2.1, hInv.2.2.2.2⟩ hlen

/-- The session states reachable from a fresh game through the normal flow:
gravity moves submitted while the status is `playing` with an in-bounds input
column (local clicks, AI moves and remote moves all pass through `applyMove`),
and undos. -/
inductive Reachable (cfg : GameConfig) : Session → Prop
  | init : Reachable cfg (initSession cfg)
  | move (s : Session) (input : Coordinate) (isRemote : Bool) :
      Reachable cfg s → s.status = Status.playing →
      0 ≤ input.x → input.x < cfg.gridSize →
      0 ≤ input.y → input.y < cfg.gridSize →
      Reachable cfg (applyMove
        (fun b c => gravityDeterminePosition b cfg.gridSize c) cfg s input
        isRemote).1
  | undo (s : Session) (isRemote : Bool) :
      Reachable cfg s → Reachable cfg (performUndo cfg s isRemote).1

theorem reachable_inv (cfg : GameConfig) (s : Session) (hR : Reachable cfg s) :
    SessionInv cfg s := by
  induction hR with
  | init => exact inv_init cfg
  | move s input isRemote _ hst hx0 hx1 hy0 hy1 ih =>
    exact inv_move cfg s input isRemote ih hst hx0 hx1 hy0 hy1
  | undo s isRemote _ ih => exact inv_undo cfg s isRemote ih

theorem performUndo_one (cfg : GameConfig) (s : Session) (ir2 : Bool)
    (hmode : cfg.gameMode = GameMode.PvP ∨ cfg.gameMode = GameMode.Online)
    (hne : s.state.history ≠ []) (hth : s.thinking = false) :
    performUndo cfg s ir2 =
      (⟨{ board := (s.state.history.drop (s.state.history.length - 1)).foldl
            (fun b c => setCell b c none) s.state.board
          currentPlayer := s.state.currentPlayer.other
          winner := none
          winningLine := none
          history := s.state.history.take (s.state.history.length - 1)
          isDraw := false
          networkStatus := s.state.networkStatus }, s.status, s.thinking⟩,
       if cfg.gameMode = GameMode.Online ∧ ir2 = false then [NetEvent.undoEv]
       else []) := by
  have hguard : ¬(s.state.history = [] ∨ s.thinking = true) := by
    rintro (hh | hh)
    · exact hne hh
    · rw [hth] at hh; cases hh
  have hsteps : (match cfg.gameMode with
      | GameMode.PvE =>
        if s.state.currentPlayer = Player.black ∧ 2 ≤ s.state.history.length then
          some 2
        else if s.state.currentPlayer = Player.white then some 1
        else none
      | _ => (some 1 : Option Nat)) = some 1 := by
    rcases hmode with h | h <;> rw [h]
  rw [performUndo_some cfg s ir2 1 hguard hsteps, if_pos hmode]

/-- Claim C6: in two-player (PvP) and online modes, a single-ply undo performed
right after one successful gravity move from a reachable playing state S restores
board, current turn, winner, winningLine and draw flag to exactly their values in
S. -/
theorem undo_inverts_move (cfg : GameConfig) (s : Session) (input t : Coordinate)
    (ir1 ir2 : Bool)
    (hmode : cfg.gameMode = GameMode.PvP ∨ cfg.gameMode = GameMode.Online)
    (hR : Reachable cfg s) (hst : s.status = Status.playing)
    (hres : gravityDeterminePosition s.state.board cfg.gridSize input = some t) :
    (performUndo cfg (applyMove
        (fun b c => gravityDeterminePosition b cfg.gridSize c) cfg s input
        ir1).1 ir2).1.state.board = s.state.board ∧
    (performUndo cfg (applyMove
        (fun b c => gravityDeterminePosition b cfg.gridSize c) cfg s input
        ir1).1 ir2).1.state.currentPlayer = s.state.currentPlayer ∧
    (performUndo cfg (applyMove
        (fun b c => gravityDeterminePosition b cfg.gridSize c) cfg s input
        ir1).1 ir2).1.state.winner = s.state.winner ∧
    (performUndo cfg (applyMove
        (fun b c => gravityDeterminePosition b cfg.gridSize c) cfg s input
        ir1).1 ir2).1.state.winningLine = s.state.winningLine ∧
    (performUndo cfg (applyMove
        (fun b c => gravityDeterminePosition b cfg.gridSize c) cfg s input
        ir1).1 ir2).1.state.isDraw = s.state.isDraw := by
  obtain ⟨hth, hflags, -, -, -⟩ := reachable_inv cfg s hR
  obtain ⟨hw, hl, hd⟩ := hflags hst
  have hz' : ∃ z : Nat, gravityZ s.state.board cfg.gridSize input.x input.y =
      some z ∧ t = ⟨input.x, input.y, (z : Int)⟩ := by
    unfold gravityDeterminePosition at hres
    cases hz : gravityZ s.state.board cfg.gridSize input.x input.y with
    | none => rw [hz] at hres; cases hres
    | some z =>
      rw [hz] at hres
      exact ⟨z, rfl, (Option.some_inj.mp hres).symm⟩
  obtain ⟨z, hz, rfl⟩ := hz'
  have hempty := (gravityZ_eq_some.mp hz).2.1
  have happ1 : (applyMove (fun b c => gravityDeterminePosition b cfg.gridSize c)
      cfg s input ir1).1.state.history =
      s.state.history ++ [⟨input.x, input.y, (z : Int)⟩] := by
    rw [applyMove_some _ cfg s input ⟨input.x, input.y, (z : Int)⟩ ir1 hres]
  have happth : (applyMove (fun b c => gravityDeterminePosition b cfg.gridSize c)
      cfg s input ir1).1.thinking = s.thinking := by
    rw [applyMove_some _ cfg s input ⟨input.x, input.y, (z : Int)⟩ ir1 hres]
  have hu := performUndo_one cfg
    (applyMove (fun b c => gravityDeterminePosition b cfg.gridSize c) cfg s input
      ir1).1 ir2 hmode (by rw [happ1]; simp) (by rw [happth]; exact hth)
  rw [hu]
  rw [applyMove_some _ cfg s input ⟨input.x, input.y, (z : Int)⟩ ir1 hres]
  dsimp only
  have hlen1 : (s.state.history ++
      [(⟨input.x, input.y, (z : Int)⟩ : Coordinate)]).length - 1 =
      s.state.history.length := by simp
  refine ⟨?_, Player.other_other s.state.currentPlayer, hw.symm, hl.symm, hd.symm⟩
  rw [hlen1]
  have hdrop : (s.state.history ++
      [(⟨input.x, input.y, (z : Int)⟩ : Coordinate)]).drop s.state.history.length =
      [⟨input.x, input.y, (z : Int)⟩] := List.drop_left _ _
  rw [hdrop]
  simp only [List.foldl_cons, List.foldl_nil]
  exact setCell_set_none s.state.board ⟨input.x, input.y, (z : Int)⟩
    (some s.state.currentPlayer) hempty

theorem undo_inverts_move_witness :
    (performUndo cfg1 (applyMove
        (fun b c => gravityDeterminePosition b cfg1.gridSize c) cfg1
        (initSession cfg1) ⟨0, 0, 0⟩ false).1 false).1.state.board =
      (initSession cfg1).state.board ∧
    (performUndo cfg1 (applyMove
        (fun b c => gravityDeterminePosition b cfg1.gridSize c) cfg1
        (initSession cfg1) ⟨0, 0, 0⟩ false).1 false).1.state.currentPlayer =
      (initSession cfg1).state.currentPlayer ∧
    (performUndo cfg1 (applyMove
        (fun b c => gravityDeterminePosition b cfg1.gridSize c) cfg1
        (initSession cfg1) ⟨0, 0, 0⟩ false).1 false).1.state.winner =
      (initSession cfg1).state.winner ∧
    (performUndo cfg1 (applyMove
        (fun b c => gravityDeterminePosition b cfg1.gridSize c) cfg1
        (initSession cfg1) ⟨0, 0, 0⟩ false).1 false).1.state.winningLine =
      (initSession cfg1).state.winningLine ∧
    (performUndo cfg1 (applyMove
        (fun b c => gravityDeterminePosition b cfg1.gridSize c) cfg1
        (initSession cfg1) ⟨0, 0, 0⟩ false).1 false).1.state.isDraw =
      (initSession cfg1).state.isDraw :=
  undo_inverts_move cfg1 (initSession cfg1) ⟨0, 0, 0⟩ ⟨0, 0, 0⟩ false false
    (Or.inl rfl) Reachable.init rfl (by decide)

/-- Claim C10: in every state reachable from a fresh game via any sequence of
successful moves and undos, the number of non-empty cells on the board equals the
length of the move history, the history entries name pairwise-distinct in-bounds
coordinates, and each history entry's cell holds a stone. -/
theorem reachable_history_invariant (cfg : GameConfig) (s : Session)
    (hR : Reachable cfg s) :
    countStones s.state.board cfg.gridSize = s.state.history.length ∧
    s.state.history.Pairwise (· ≠ ·) ∧
    historyOk cfg.gridSize s.state := by
  obtain ⟨-, -, h1, h2, h3⟩ := reachable_inv cfg s hR
  exact ⟨h1, h2, h3⟩

theorem reachable_history_invariant_witness :
    countStones (initSession cfg1).state.board cfg1.gridSize =
      (initSession cfg1).state.history.length ∧
    (initSession cfg1).state.history.Pairwise (· ≠ ·) ∧
    historyOk cfg1.gridSize (initSession cfg1).state :=
  reachable_history_invariant cfg1 (initSession cfg1) Reachable.init
